import Mathlib

/-!
# cidr2ips: expansion of a CIDR block into its host addresses

A shallow embedding of `main.go` (package `main` of `gilsgil/cidr2ips`) together
with the parts of Go's standard library the program calls (`net.ParseCIDR`,
`net.IP`, `net.IPMask`, `net/netip` text conversions, `math/big`).

Conventions.
* A Go `byte` is a `Nat` below 256; a cast `byte(x)` is written `x % 256`.
* A Go `uint32` is a `Nat` below `2^32`; every operation that can carry out of
  32 bits is followed by `% 2^32`.
* A `*big.Int` (never negative in this program) is a `Nat`.
* A Go slice of bytes (`net.IP`, `net.IPMask`, `[]byte`) is a `List Nat`; the
  `nil` slice is `[]`.
* A Go string is a Lean `String`; parsers read it as its list of characters.
  Every character outside ASCII is rejected by the parsers, so reading
  characters instead of UTF-8 bytes does not change any result.
* A run-time panic (index out of range) is `none` in `Option`-valued
  conversions and `Outcome.panic` for the whole call.
* Loops whose trip count depends on the data take a `fuel` argument; the result
  is `none` when the fuel runs out before the loop exits.
-/

namespace Cidr2ips

/-! ## Go standard library: `net.IP` and `net.IPMask` -/

/-- Go `net.IP`: a slice of bytes, 4 or 16 long when it is an address. -/
abbrev IP := List Nat

/-- Go `net.IPMask`: a slice of bytes. -/
abbrev IPMask := List Nat

/-- Go `net.IPv4len`. -/
def IPv4len : Nat := 4

/-- Go `net.IPv6len`. -/
def IPv6len : Nat := 16

/-- Go `net.v4InV6Prefix`: the first twelve bytes of an IPv4-mapped IPv6 address. -/
def v4InV6Prefix : List Nat := [0, 0, 0, 0, 0, 0, 0, 0, 0, 0, 0xff, 0xff]

/-- Go `net.IPv4(a, b, c, d)`: the 16-byte form of the IPv4 address `a.b.c.d`. -/
def IPv4 (a b c d : Nat) : IP := v4InV6Prefix ++ [a, b, c, d]

/-- Go `net.isZeros`. -/
def isZeros (p : List Nat) : Bool := p.all (fun b => b == 0)

/-- Go `net.allFF`. -/
def allFF (b : List Nat) : Bool := b.all (fun c => c == 0xff)

/-- Go `IP.To4`: the 4-byte form of an IPv4 address (given in 4 or in
IPv4-mapped 16 bytes), `nil` otherwise. -/
def To4 (ip : IP) : IP :=
  if ip.length = IPv4len then ip
  else if ip.length = IPv6len ∧ isZeros (ip.take 10) = true ∧
      ip.getD 10 0 = 0xff ∧ ip.getD 11 0 = 0xff then (ip.drop 12).take 4
  else []

/-- Go `IP.To16`: the 16-byte form of an address, `nil` when the length is
neither 4 nor 16. -/
def To16 (ip : IP) : IP :=
  if ip.length = IPv4len then IPv4 (ip.getD 0 0) (ip.getD 1 0) (ip.getD 2 0) (ip.getD 3 0)
  else if ip.length = IPv6len then ip
  else []

/-- Go `IP.Mask`: the bytewise AND of `ip` and `mask`, after bringing a
16-byte/4-byte pair to a common length; `nil` when the lengths still differ. -/
def IPMaskApply (ip : IP) (mask : IPMask) : IP :=
  let mask1 := if mask.length = IPv6len ∧ ip.length = IPv4len ∧ allFF (mask.take 12) = true
    then mask.drop 12 else mask
  let ip1 := if mask1.length = IPv4len ∧ ip.length = IPv6len ∧ ip.take 12 = v4InV6Prefix
    then ip.drop 12 else ip
  if ip1.length ≠ mask1.length then []
  else List.zipWith (fun x m => x &&& m) ip1 mask1

/-- The loop of Go `net.CIDRMask`: `l` bytes still to write, `n` one-bits left. -/
def cidrMaskLoop : Nat → Nat → List Nat
  | 0, _ => []
  | l + 1, n =>
    if n ≥ 8 then 0xff :: cidrMaskLoop l (n - 8)
    else ((0xff >>> n) ^^^ 0xff) :: cidrMaskLoop l 0

/-- Go `net.CIDRMask(ones, bits)`: `ones` one-bits followed by zero-bits, `bits`
long; `nil` unless `bits` is 32 or 128 and `ones ≤ bits`. -/
def CIDRMask (ones bits : Nat) : IPMask :=
  if bits ≠ 8 * IPv4len ∧ bits ≠ 8 * IPv6len then []
  else if ones > bits then []
  else cidrMaskLoop (bits / 8) ones

/-- The inner loop of Go `net.simpleMaskLength`, `for v&0x80 != 0 { n++; v <<= 1 }`
on a byte `v`: at most eight rounds, after which `v` is zero. -/
def leadingOnes : Nat → Nat → Nat → Nat × Nat
  | 0, v, n => (v, n)
  | k + 1, v, n => if v &&& 0x80 ≠ 0 then leadingOnes k ((v <<< 1) % 256) (n + 1) else (v, n)

/-- Go `net.simpleMaskLength`, started with `n` one-bits already counted:
`none` stands for the result `-1` (the mask is not ones followed by zeros). -/
def simpleMaskLength : IPMask → Nat → Option Nat
  | [], n => some n
  | v :: rest, n =>
    if v = 0xff then simpleMaskLength rest (n + 8)
    else
      let r := leadingOnes 8 v n
      if r.1 ≠ 0 then none
      else if rest.all (fun b => b == 0) then some r.2
      else none

/-- Go `IPMask.Size`: `(ones, bits)`, or `(0, 0)` for a mask that is not in
canonical form. -/
def IPMaskSize (m : IPMask) : Nat × Nat :=
  match simpleMaskLength m 0 with
  | none => (0, 0)
  | some ones => (ones, m.length * 8)

/-- Go `net.IPNet`: a network address and its mask. -/
structure IPNet where
  IP : IP
  Mask : IPMask
deriving DecidableEq

/-! ## Go standard library: `net/netip` address parsing -/

/-- The tag `z` of a Go `netip.Addr`: invalid, IPv4, IPv6 without zone, IPv6
with a zone. -/
inductive AddrKind
  | z0
  | z4
  | z6noz
  | z6zone (zone : List Char)
deriving DecidableEq

/-- Go `netip.Addr`: the address as a 128-bit integer (an IPv4 address is held
in IPv4-mapped form) and the tag. -/
structure Addr where
  addr : Nat
  z : AddrKind
deriving DecidableEq

/-- Go `big.Int.SetBytes` and `netip`'s big-endian reads: the value of a
big-endian byte string. -/
def beBytesToNat (b : List Nat) : Nat := b.foldl (fun acc x => acc * 256 + x) 0

/-- Go `netip.AddrFrom4`. -/
def AddrFrom4 (a b c d : Nat) : Addr :=
  { addr := 0xffff00000000 ||| (a <<< 24) ||| (b <<< 16) ||| (c <<< 8) ||| d, z := AddrKind.z4 }

/-- Go `netip.AddrFrom16`. -/
def AddrFrom16 (ip : List Nat) : Addr :=
  { addr := beBytesToNat ip % 2 ^ 128, z := AddrKind.z6noz }

/-- Go `Addr.WithZone` as `parseIPv6` uses it: no change for the empty zone. -/
def Addr.WithZone (a : Addr) (zone : List Char) : Addr :=
  if zone = [] then a else { a with z := AddrKind.z6zone zone }

/-- Go `Addr.Zone() != ""`. -/
def Addr.hasZone (a : Addr) : Bool :=
  match a.z with
  | AddrKind.z6zone _ => true
  | _ => false

/-- Go `Addr.BitLen`: 32 for IPv4, 128 for IPv6, 0 for the zero `Addr`. -/
def Addr.BitLen (a : Addr) : Nat :=
  match a.z with
  | AddrKind.z0 => 0
  | AddrKind.z4 => 32
  | _ => 128

/-- Go `Addr.As16`: the sixteen bytes of the 128-bit value, most significant first. -/
def Addr.As16 (a : Addr) : List Nat :=
  (List.range 16).map (fun k => (a.addr >>> (8 * (15 - k))) % 256)

/-- The loop of Go `netip.parseIPv4Fields` over the rest of the string: `i` is
the index of the next character, `prev` the character before it; the state is
`(val, pos, digLen, fields)`. `none` is any of its errors. -/
def parseIPv4FieldsLoop :
    List Char → Nat → Option Char → Nat → Nat → Nat → List Nat → Option (Nat × Nat × List Nat)
  | [], _, _, val, pos, _, fields => some (val, pos, fields)
  | c :: rest, i, prev, val, pos, digLen, fields =>
    if 48 ≤ c.toNat ∧ c.toNat ≤ 57 then
      if digLen = 1 ∧ val = 0 then none
      else
        let val1 := val * 10 + (c.toNat - 48)
        if val1 > 255 then none
        else parseIPv4FieldsLoop rest (i + 1) (some c) val1 pos (digLen + 1) fields
    else if c = '.' then
      if i = 0 ∨ rest = [] ∨ prev = some '.' then none
      else if pos = 3 then none
      else parseIPv4FieldsLoop rest (i + 1) (some c) 0 (pos + 1) 0 (fields.set pos (val % 256))
    else none

/-- Go `netip.parseIPv4Fields`: the four decimal fields of a dotted-decimal
address (no leading zeros, each at most 255), `none` on error. -/
def parseIPv4Fields (s : List Char) : Option (List Nat) :=
  match parseIPv4FieldsLoop s 0 none 0 0 0 [0, 0, 0, 0] with
  | none => none
  | some (val, pos, fields) => if pos < 3 then none else some (fields.set 3 (val % 256))

/-- Go `netip.parseIPv4`. -/
def parseIPv4 (s : List Char) : Option Addr :=
  match parseIPv4Fields s with
  | none => none
  | some fields =>
    some (AddrFrom4 (fields.getD 0 0) (fields.getD 1 0) (fields.getD 2 0) (fields.getD 3 0))

/-- The value of a hexadecimal digit, `none` for any other character. -/
def hexVal (c : Char) : Option Nat :=
  if 48 ≤ c.toNat ∧ c.toNat ≤ 57 then some (c.toNat - 48)
  else if 97 ≤ c.toNat ∧ c.toNat ≤ 102 then some (c.toNat - 97 + 10)
  else if 65 ≤ c.toNat ∧ c.toNat ≤ 70 then some (c.toNat - 65 + 10)
  else none

/-- The hex-group loop of Go `netip.parseIPv6`: reads hex digits from the front
of `s`; returns `(off, acc)`, the number of digits and their value, or `none`
for a group of more than four digits or a value above `0xffff`. -/
def hexRun : List Char → Nat → Nat → Option (Nat × Nat)
  | [], off, acc => some (off, acc)
  | c :: rest, off, acc =>
    match hexVal c with
    | none => some (off, acc)
    | some d =>
      let acc1 := ((acc <<< 4) + d) % 2 ^ 32
      if off > 3 then none
      else if acc1 > 0xffff then none
      else hexRun rest (off + 1) acc1

/-- Writes the four bytes `f` at `ip[i..i+4]`. -/
def writeFields (ip : List Nat) (i : Nat) (f : List Nat) : List Nat :=
  (((ip.set i (f.getD 0 0)).set (i + 1) (f.getD 1 0)).set (i + 2) (f.getD 2 0)).set (i + 3)
    (f.getD 3 0)

/-- The main loop `for i < 16` of Go `netip.parseIPv6`. The state is the rest of
the string `s`, the write index `i`, the position of the ellipsis (if any) and
the sixteen bytes `ip`; `none` is any of its errors. Every round that continues
adds 2 to `i`, so eight rounds of fuel are never used up before `i = 16`. -/
def parseIPv6Loop :
    Nat → List Char → Nat → Option Nat → List Nat →
      Option (List Char × Nat × Option Nat × List Nat)
  | 0, s, i, ellipsis, ip => some (s, i, ellipsis, ip)
  | fuel + 1, s, i, ellipsis, ip =>
    if ¬ i < 16 then some (s, i, ellipsis, ip)
    else
      match hexRun s 0 0 with
      | none => none
      | some (off, acc) =>
        if off = 0 then none
        else if (s.drop off).head? = some '.' then
          if ellipsis = none ∧ i ≠ 12 then none
          else if i + 4 > 16 then none
          else
            match parseIPv4Fields s with
            | none => none
            | some f => some ([], i + 4, ellipsis, writeFields ip i f)
        else
          let ip1 := (ip.set i ((acc >>> 8) % 256)).set (i + 1) (acc % 256)
          let i1 := i + 2
          let s1 := s.drop off
          if s1 = [] then some (s1, i1, ellipsis, ip1)
          else if s1.head? ≠ some ':' then none
          else if s1.length = 1 then none
          else
            let s2 := s1.drop 1
            if s2.head? = some ':' then
              if ellipsis ≠ none then none
              else
                let s3 := s2.drop 1
                if s3 = [] then some (s3, i1, some i1, ip1)
                else parseIPv6Loop fuel s3 i1 (some i1) ip1
            else parseIPv6Loop fuel s2 i1 ellipsis ip1

/-- The loop `for j := i - 1; j >= ellipsis; j-- { ip[j+n] = ip[j] }` of Go
`netip.parseIPv6`, with `k` rounds left and `j + 1` held in `j1`. -/
def expandLoop (n : Nat) : Nat → Nat → List Nat → List Nat
  | 0, _, ip => ip
  | k + 1, j1, ip => expandLoop n k (j1 - 1) (ip.set (j1 - 1 + n) (ip.getD (j1 - 1) 0))

/-- Go `clear(ip[lo : lo+n])`. -/
def clearRange : Nat → Nat → List Nat → List Nat
  | 0, _, ip => ip
  | n + 1, lo, ip => clearRange n (lo + 1) (ip.set lo 0)

/-- Go `netip.parseIPv6`: hex groups separated by colons, at most one `::`, an
optional dotted-decimal tail and an optional zone after `%`. -/
def parseIPv6 (input : List Char) : Option Addr :=
  let s0 := input.takeWhile (fun c => c != '%')
  let hasPercent : Bool := input.any (fun c => c == '%')
  let zone := (input.dropWhile (fun c => c != '%')).drop 1
  if hasPercent = true ∧ zone = [] then none
  else
    let lead : Bool := s0.length ≥ 2 ∧ s0.head? = some ':' ∧ (s0.drop 1).head? = some ':'
    let ellipsis0 : Option Nat := if lead then some 0 else none
    let s1 := if lead then s0.drop 2 else s0
    if lead = true ∧ s1 = [] then some (Addr.WithZone (AddrFrom16 (List.replicate 16 0)) zone)
    else
      match parseIPv6Loop 8 s1 0 ellipsis0 (List.replicate 16 0) with
      | none => none
      | some (s, i, ellipsis, ip) =>
        if s ≠ [] then none
        else if i < 16 then
          match ellipsis with
          | none => none
          | some e =>
            let n := 16 - i
            some (Addr.WithZone (AddrFrom16 (clearRange n e (expandLoop n (i - e) i ip))) zone)
        else if ellipsis ≠ none then none
        else some (Addr.WithZone (AddrFrom16 ip) zone)

/-- The scan of Go `netip.ParseAddr` for the first of `.`, `:` and `%`. -/
def parseAddrScan (whole : List Char) : List Char → Option Addr
  | [] => none
  | c :: rest =>
    if c = '.' then parseIPv4 whole
    else if c = ':' then parseIPv6 whole
    else if c = '%' then none
    else parseAddrScan whole rest

/-- Go `netip.ParseAddr`. -/
def ParseAddr (s : List Char) : Option Addr := parseAddrScan s s

/-- The loop of Go `net.dtoi`: `(n, i, ok)`. -/
def dtoiLoop : List Char → Nat → Nat → Nat × Nat × Bool
  | [], n, i => (n, i, true)
  | c :: rest, n, i =>
    if 48 ≤ c.toNat ∧ c.toNat ≤ 57 then
      let n1 := n * 10 + (c.toNat - 48)
      if n1 ≥ 0xFFFFFF then (0xFFFFFF, i, false) else dtoiLoop rest n1 (i + 1)
    else (n, i, true)

/-- Go `net.dtoi`: a decimal number at the front of `s`: its value, the number
of characters read and whether a number below `0xFFFFFF` was read. -/
def dtoi (s : List Char) : Nat × Nat × Bool :=
  let r := dtoiLoop s 0 0
  if r.2.2 = true ∧ r.2.1 = 0 then (0, 0, false) else r

/-- Go `net.ParseCIDR`: `(ip, ipNet)` for an accepted string, `none` for the
error `&ParseError{Type: "CIDR address", Text: s}`. -/
def ParseCIDR (s : String) : Option (IP × IPNet) :=
  let cs := s.data
  if ¬ cs.any (fun c => c == '/') then none
  else
    let addr := cs.takeWhile (fun c => c != '/')
    let mask := (cs.dropWhile (fun c => c != '/')).drop 1
    match ParseAddr addr with
    | none => none
    | some ipAddr =>
      if ipAddr.hasZone = true then none
      else
        let r := dtoi mask
        if r.2.2 = false ∨ r.2.1 ≠ mask.length ∨ r.1 > ipAddr.BitLen then none
        else
          let m := CIDRMask r.1 ipAddr.BitLen
          let addr16 := ipAddr.As16
          some (addr16, { IP := IPMaskApply addr16 m, Mask := m })

/-- The text of the Go error `net.ParseError` that `ParseCIDR` returns. -/
def parseErrorText (s : String) : String := "invalid CIDR address: " ++ s

/-! ## Go standard library: text of an address (`IP.String`) -/

/-- Go `const digits = "0123456789abcdef"`, indexed. -/
def digit (x : Nat) : Char := "0123456789abcdef".data.getD x '0'

/-- Go `netip.appendDecimal`: a byte in decimal, without leading zeros. -/
def appendDecimal (x : Nat) : List Char :=
  (if x ≥ 100 then [digit (x / 100)] else []) ++
    (if x ≥ 10 then [digit (x / 10 % 10)] else []) ++ [digit (x % 10)]

/-- Go `netip.appendHex`: a 16-bit group in lower-case hex, without leading zeros. -/
def appendHex (x : Nat) : List Char :=
  (if x ≥ 0x1000 then [digit (x >>> 12)] else []) ++
    (if x ≥ 0x100 then [digit ((x >>> 8) &&& 0xf)] else []) ++
    (if x ≥ 0x10 then [digit ((x >>> 4) &&& 0xf)] else []) ++ [digit (x &&& 0xf)]

/-- Go `Addr.string4` on the four bytes: dotted decimal, most significant byte first. -/
def string4 (p : List Nat) : List Char :=
  appendDecimal (p.getD 0 0) ++ ['.'] ++ appendDecimal (p.getD 1 0) ++ ['.'] ++
    appendDecimal (p.getD 2 0) ++ ['.'] ++ appendDecimal (p.getD 3 0)

/-- Go `Addr.v6u16(i)`: the `i`-th 16-bit group of the 128-bit value. -/
def v6u16 (addr : Nat) (i : Nat) : Nat := (addr >>> (16 * (7 - i))) % 65536

/-- The inner loop `for j < 8 && ip.v6u16(j) == 0 { j++ }` of Go `Addr.appendTo6`. -/
def zeroRunEnd (addr : Nat) : Nat → Nat → Nat
  | 0, j => j
  | k + 1, j => if j < 8 ∧ v6u16 addr j = 0 then zeroRunEnd addr k (j + 1) else j

/-- The first loop of Go `Addr.appendTo6`: the longest run of at least two zero
groups, the first such among equals, as `(zeroStart, zeroEnd)`; `(255, 255)`
when there is none. The state is updated for `i = lo, lo+1, ...`, `k` rounds. -/
def zeroRun (addr : Nat) : Nat → Nat → Nat × Nat → Nat × Nat
  | 0, _, st => st
  | k + 1, i, st =>
    let j := zeroRunEnd addr 8 i
    let l := j - i
    zeroRun addr k (i + 1) (if l ≥ 2 ∧ l > st.2 - st.1 then (i, j) else st)

/-- The second loop of Go `Addr.appendTo6`: the groups in hex separated by
colons, the zero run written as `::`; `k` rounds of fuel for at most eight groups. -/
def appendGroups (addr : Nat) (zeroStart zeroEnd : Nat) : Nat → Nat → List Char
  | 0, _ => []
  | k + 1, i =>
    if ¬ i < 8 then []
    else if i = zeroStart then
      if zeroEnd ≥ 8 then [':', ':']
      else [':', ':'] ++ appendHex (v6u16 addr zeroEnd) ++
        appendGroups addr zeroStart zeroEnd k (zeroEnd + 1)
    else
      (if i > 0 then [':'] else []) ++ appendHex (v6u16 addr i) ++
        appendGroups addr zeroStart zeroEnd k (i + 1)

/-- Go `Addr.string6` for an address without zone: the compressed lower-case
IPv6 text of a 128-bit value. -/
def string6 (addr : Nat) : List Char :=
  let z := zeroRun addr 8 0 (255, 255)
  appendGroups addr z.1 z.2 8 0

/-- Go `net.hexString`: two lower-case hex digits per byte. -/
def hexString (b : List Nat) : List Char :=
  b.flatMap (fun x => [digit ((x >>> 4) % 16), digit (x &&& 0xf)])

/-- Go `IP.String`: `<nil>` for the empty slice, `?` and the bytes in hex for a
length other than 4 and 16, dotted decimal when `To4` succeeds (an IPv4-mapped
16-byte address included), compressed IPv6 text otherwise. -/
def IPString (ip : IP) : String :=
  if ip.length = 0 then "<nil>"
  else if ip.length ≠ IPv4len ∧ ip.length ≠ IPv6len then String.mk (['?'] ++ hexString ip)
  else if (To4 ip).length = IPv4len then String.mk (string4 (To4 ip))
  else String.mk (string6 (AddrFrom16 ip).addr)

/-! ## Go standard library: `math/big` -/

/-- The loop behind Go `big.Int.Bytes`: base-256 digits of `n`, most significant
first, pushed in front of `acc`. The fuel is never used up when it starts at `n`. -/
def bigBytesAux : Nat → Nat → List Nat → List Nat
  | 0, _, acc => acc
  | fuel + 1, n, acc => if n = 0 then acc else bigBytesAux fuel (n / 256) (n % 256 :: acc)

/-- Go `big.Int.Bytes` of a non-negative value: the big-endian bytes without
leading zeros (no byte at all for zero). -/
def bigBytes (n : Nat) : List Nat := bigBytesAux n n []

/-! ## `main.go` -/

/-- Source `ip4ToUint32`: the four bytes of `ip.To4()` as a big-endian `uint32`;
`none` when an index `ip[0..3]` is out of range (Go panics). -/
def ip4ToUint32 (ip : IP) : Option Nat :=
  let ip4 := To4 ip
  match ip4[0]?, ip4[1]?, ip4[2]?, ip4[3]? with
  | some a, some b, some c, some d =>
    some (((a <<< 24) % 2 ^ 32) ||| ((b <<< 16) % 2 ^ 32) ||| ((c <<< 8) % 2 ^ 32) ||| d)
  | _, _, _, _ => none

/-- Source `uint32ToIP`: the address `net.IPv4` builds from the four bytes of `n`. -/
def uint32ToIP (n : Nat) : IP :=
  IPv4 ((n >>> 24) % 256) (((n >>> 16) &&& 0xFF) % 256) (((n >>> 8) &&& 0xFF) % 256)
    ((n &&& 0xFF) % 256)

/-- Source `ipToBigInt`: the big-endian value of `ip.To16()`. -/
def ipToBigInt (ip : IP) : Nat := beBytesToNat (To16 ip)

/-- Source `bigIntToIP`: the bytes of `i`, padded in front with zeros to 4
(IPv4, last four bytes kept) or to 16 bytes (IPv6, longer values unchanged). -/
def bigIntToIP (i : Nat) (isIPv4 : Bool) : IP :=
  let b := bigBytes i
  if isIPv4 then
    let b4 := if b.length < 4 then List.replicate (4 - b.length) 0 ++ b else b
    IPv4 (b4.getD (b4.length - 4) 0) (b4.getD (b4.length - 3) 0) (b4.getD (b4.length - 2) 0)
      (b4.getD (b4.length - 1) 0)
  else if b.length < 16 then List.replicate (16 - b.length) 0 ++ b
  else b

/-- What one call of `extractIPsFromCIDR` does, as seen from outside. -/
inductive Outcome
  /-- The string was rejected: `Error: msg` went to standard error, nothing to
  standard output, and the call returned. -/
  | parseError (msg : String)
  /-- The call returned after `fmt.Println(a.String())` for each `a` of
  `printed`, in this order. -/
  | done (printed : List IP)
  /-- The call panicked (index out of range) before printing anything. -/
  | panic
deriving DecidableEq

/-- The lines written to standard output. -/
def Outcome.stdout : Outcome → List String
  | Outcome.done printed => printed.map IPString
  | _ => []

/-- The lines written to standard error by `extractIPsFromCIDR` itself. -/
def Outcome.stderr : Outcome → List String
  | Outcome.parseError msg => ["Error: " ++ msg]
  | _ => []

/-- Whether the call returned to its caller (it did not panic). -/
def Outcome.returned : Outcome → Bool
  | Outcome.panic => false
  | _ => true

/-- The `uint32` value `broadcast := start | ^mask` of `extractIPsFromCIDR`. -/
def broadcastOf (start mask : Nat) : Nat := start ||| (mask ^^^ 0xFFFFFFFF)

/-- The `uint32` value `total := broadcast - start + 1` of `extractIPsFromCIDR`,
computed modulo `2^32` as Go does. -/
def totalOf (broadcast start : Nat) : Nat := (broadcast + 2 ^ 32 - start + 1) % 2 ^ 32

/-- The IPv4 loop `for i := start + 1; i < broadcast; i++` of
`extractIPsFromCIDR`, from counter value `i`: the addresses printed. The
counter is a `uint32`, so `i++` is taken modulo `2^32`. -/
def hostLoop4 : Nat → Nat → Nat → Option (List IP)
  | 0, _, _ => none
  | fuel + 1, broadcast, i =>
    if i < broadcast then
      (hostLoop4 fuel broadcast ((i + 1) % 2 ^ 32)).map (fun rest => uint32ToIP i :: rest)
    else some []

/-- The IPv6 loop `for i.Cmp(total) < 0` of `extractIPsFromCIDR`, from counter
value `i`: the addresses printed. -/
def hostLoop6 : Nat → Nat → Nat → Nat → Option (List IP)
  | 0, _, _, _ => none
  | fuel + 1, total, networkInt, i =>
    if i < total then
      (hostLoop6 fuel total networkInt (i + 1)).map
        (fun rest => bigIntToIP (networkInt + i) false :: rest)
    else some []

/-- Source `extractIPsFromCIDR`: parse the CIDR and print each host address.
`none` only when `fuel` loop rounds were not enough. -/
def extractIPsFromCIDR (fuel : Nat) (cidr : String) : Option Outcome :=
  match ParseCIDR cidr with
  | none => some (Outcome.parseError (parseErrorText cidr))
  | some (ip, ipNet) =>
    if To4 ip ≠ [] then
      let network := To4 ipNet.IP
      match ip4ToUint32 network with
      | none => some Outcome.panic
      | some start =>
        match ip4ToUint32 (To4 ipNet.Mask) with
        | none => some Outcome.panic
        | some mask =>
          let broadcast := broadcastOf start mask
          let total := totalOf broadcast start
          if total > 2 then
            (hostLoop4 fuel broadcast ((start + 1) % 2 ^ 32)).map Outcome.done
          else some (Outcome.done [])
    else
      let ones := (IPMaskSize ipNet.Mask).1
      let bits := (IPMaskSize ipNet.Mask).2
      let total := 1 <<< (bits - ones)
      if total > 1 then
        let networkInt := ipToBigInt ipNet.IP
        (hostLoop6 fuel total networkInt 1).map Outcome.done
      else some (Outcome.done [])

/-- The standard output of one call at a given fuel (nothing when the fuel does
not suffice or the call does not complete). -/
def linesOf (fuel : Nat) (cidr : String) : List String :=
  match extractIPsFromCIDR fuel cidr with
  | some o => o.stdout
  | none => []

/-- What the loop `for _, cidr := range cidrList` of `main` has done when it
stops: the lines on standard output and standard error, and whether it stopped
because a call panicked (the process then ends and later entries are not read). -/
structure Run where
  stdout : List String
  stderr : List String
  crashed : Bool
deriving DecidableEq

/-- The loop `for _, cidr := range cidrList { extractIPsFromCIDR(cidr) }` of
`main`; every call gets `fuel` loop rounds. -/
def processLoop (fuel : Nat) : List String → Option Run
  | [] => some { stdout := [], stderr := [], crashed := false }
  | cidr :: rest =>
    match extractIPsFromCIDR fuel cidr with
    | none => none
    | some Outcome.panic => some { stdout := [], stderr := [], crashed := true }
    | some o =>
      (processLoop fuel rest).map
        (fun r => { stdout := o.stdout ++ r.stdout, stderr := o.stderr ++ r.stderr,
                    crashed := r.crashed })

/-! ## Go standard library: `strings.TrimSpace`, `bufio.Scanner` -/

/-- Go `unicode.IsSpace`: the Unicode White_Space characters. -/
def isSpace (c : Char) : Bool :=
  (0x09 ≤ c.toNat ∧ c.toNat ≤ 0x0d) ∨ c.toNat = 0x20 ∨ c.toNat = 0x85 ∨ c.toNat = 0xa0 ∨
    c.toNat = 0x1680 ∨ (0x2000 ≤ c.toNat ∧ c.toNat ≤ 0x200a) ∨ c.toNat = 0x2028 ∨
    c.toNat = 0x2029 ∨ c.toNat = 0x202f ∨ c.toNat = 0x205f ∨ c.toNat = 0x3000

/-- Go `strings.TrimSpace`: the string without its leading and trailing white space. -/
def TrimSpace (s : String) : String :=
  String.mk ((s.data.dropWhile isSpace).rdropWhile isSpace)

/-- What a `bufio.Scanner` delivers from a reader: the successive values of
`scanner.Text()` while `scanner.Scan()` is true, and then `scanner.Err()`. -/
structure Scanned where
  lines : List String
  err : Option String
deriving DecidableEq

/-- Go `os.Open(path)`: the error text, or the reader (seen through its scanner). -/
inductive OpenResult
  | failed (msg : String)
  | opened (content : Scanned)
deriving DecidableEq

/-- The environment of the process: files, standard input, and whether
standard input is a character device, that is
`stat.Mode() & os.ModeCharDevice != 0`. An interactive terminal is a character
device; so are other devices such as `/dev/null`. A pipe or a redirected file
is not. -/
structure Env where
  openFile : String → OpenResult
  stdin : Scanned
  stdinIsCharDevice : Bool

/-- Go's pair `([]string, error)` as returned by `readCIDRsFromStdinOrFile`. -/
inductive ReadResult
  | ok (cidrs : List String)
  | err (msg : String)
deriving DecidableEq

/-! ## `main.go`: reading the list and `main` -/

/-- The loop `for scanner.Scan()` of `readCIDRsFromStdinOrFile`: every line is
trimmed and appended unless it is then empty. -/
def scanLoop : List String → List String
  | [] => []
  | text :: rest =>
    let line := TrimSpace text
    if line ≠ "" then line :: scanLoop rest else scanLoop rest

/-- The part of `readCIDRsFromStdinOrFile` after the reader is chosen. -/
def readFrom (sc : Scanned) : ReadResult :=
  let cidrs := scanLoop sc.lines
  match sc.err with
  | some e => ReadResult.err e
  | none => ReadResult.ok cidrs

/-- Source `readCIDRsFromStdinOrFile`: reads the CIDRs from the file `filePath`,
or from standard input when `filePath` is empty. -/
def readCIDRsFromStdinOrFile (env : Env) (filePath : String) : ReadResult :=
  if filePath ≠ "" then
    match env.openFile filePath with
    | OpenResult.failed msg => ReadResult.err msg
    | OpenResult.opened content => readFrom content
  else readFrom env.stdin

/-- The first half of `main`: the list of CIDRs to process, or the message
written to standard error before `os.Exit(1)`. -/
inductive Selected
  | list (cidrList : List String)
  | exit1 (msg : String)
deriving DecidableEq

/-- The input-source selection of `main` for the flag values `-t target` and
`-l listFile`. -/
def selectCIDRs (env : Env) (target listFile : String) : Selected :=
  if listFile ≠ "" then
    match readCIDRsFromStdinOrFile env listFile with
    | ReadResult.err e => Selected.exit1 ("Error reading file: " ++ e)
    | ReadResult.ok l => Selected.list l
  else if env.stdinIsCharDevice = false then
    match readCIDRsFromStdinOrFile env "" with
    | ReadResult.err e => Selected.exit1 ("Error reading stdin: " ++ e)
    | ReadResult.ok l => Selected.list l
  else if target ≠ "" then Selected.list [target]
  else
    Selected.exit1
      "Error: You must provide a CIDR with -t, or a list of CIDRs with -l or via stdin."

/-- What a run of `main` does: it exits with status 1 after a message, or it
runs the processing loop over the selected list. -/
inductive MainResult
  | exit1 (msg : String)
  | ran (r : Run)
deriving DecidableEq

/-- Source `main`, after `flag.Parse()` has given `target` and `listFile`. -/
def main (fuel : Nat) (env : Env) (target listFile : String) : Option MainResult :=
  match selectCIDRs env target listFile with
  | Selected.exit1 msg => some (MainResult.exit1 msg)
  | Selected.list cidrList => (processLoop fuel cidrList).map MainResult.ran

/-! # Theorems -/

set_option maxRecDepth 100000

/-! ## Bit arithmetic on natural numbers -/

/-- An OR with a value that fits below the zero low bits of `x` is a sum. -/
theorem or_eq_add_of_mod {x b i : Nat} (hx : x % 2 ^ i = 0) (hb : b < 2 ^ i) :
    x ||| b = x + b := by
  have hdm := Nat.div_add_mod x (2 ^ i)
  have hx2 : x = 2 ^ i * (x / 2 ^ i) := by omega
  rw [hx2, ← Nat.mul_add_lt_is_or hb]

/-- An AND with the mask whose bits `h .. W-1` are set clears the low `h` bits. -/
theorem and_high_mask {x W h : Nat} (hx : x < 2 ^ W) (hh : h ≤ W) :
    x &&& (2 ^ W - 2 ^ h) = x / 2 ^ h * 2 ^ h := by
  apply Nat.eq_of_testBit_eq
  intro i
  have hpos : 0 < 2 ^ h := Nat.two_pow_pos h
  have hle : 2 ^ h ≤ 2 ^ W := Nat.pow_le_pow_right (by decide) hh
  have hM : 2 ^ W - 2 ^ h = 2 ^ W - ((2 ^ h - 1) + 1) := by omega
  have hlt : 2 ^ h - 1 < 2 ^ W := by omega
  rw [Nat.testBit_and, hM, Nat.testBit_two_pow_sub_succ hlt, Nat.testBit_two_pow_sub_one,
    Nat.mul_comm, Nat.testBit_mul_pow_two, ← Nat.shiftRight_eq_div_pow, Nat.testBit_shiftRight]
  by_cases h1 : i < h
  · have h2 : ¬ i ≥ h := by omega
    simp [h1, h2]
  · have h2 : i ≥ h := by omega
    have h3 : h + (i - h) = i := by omega
    by_cases h4 : i < W
    · simp [h1, h2, h3, h4]
    · have h5 : x < 2 ^ i := Nat.lt_of_lt_of_le hx (Nat.pow_le_pow_right (by decide) (by omega))
      simp [h1, h2, h3, h4, Nat.testBit_lt_two_pow h5]

/-- The complement of the high mask within `W` bits is the low mask. -/
theorem high_mask_xor {W h : Nat} (hh : h ≤ W) :
    (2 ^ W - 2 ^ h) ^^^ (2 ^ W - 1) = 2 ^ h - 1 := by
  apply Nat.eq_of_testBit_eq
  intro i
  have hpos : 0 < 2 ^ h := Nat.two_pow_pos h
  have hle : 2 ^ h ≤ 2 ^ W := Nat.pow_le_pow_right (by decide) hh
  have hM : 2 ^ W - 2 ^ h = 2 ^ W - ((2 ^ h - 1) + 1) := by omega
  have hlt : 2 ^ h - 1 < 2 ^ W := by omega
  rw [Nat.testBit_xor, hM, Nat.testBit_two_pow_sub_succ hlt, Nat.testBit_two_pow_sub_one,
    Nat.testBit_two_pow_sub_one]
  by_cases h1 : i < h
  · have h2 : i < W := by omega
    simp [h1, h2]
  · by_cases h4 : i < W
    · simp [h1, h4]
    · simp [h1, h4]

/-- Splitting off the low byte commutes with AND. -/
theorem and_mul_add {a b x m : Nat} (hx : x < 256) (hm : m < 256) :
    (a * 256 + x) &&& (b * 256 + m) = (a &&& b) * 256 + (x &&& m) := by
  have hx8 : x < 2 ^ 8 := by simpa using hx
  have hm8 : m < 2 ^ 8 := by simpa using hm
  have hxm : x &&& m < 2 ^ 8 := Nat.and_lt_two_pow x hm8
  have e : (256 : Nat) = 2 ^ 8 := by norm_num
  apply Nat.eq_of_testBit_eq
  intro j
  rw [Nat.testBit_and, e, Nat.mul_comm a, Nat.mul_comm b, Nat.mul_comm (a &&& b),
    Nat.testBit_mul_pow_two_add a hx8, Nat.testBit_mul_pow_two_add b hm8,
    Nat.testBit_mul_pow_two_add (a &&& b) hxm]
  by_cases h : j < 8
  · simp [h]
  · simp [h]

/-! ## Big-endian byte strings -/

theorem beBytesToNat_foldl (b : List Nat) (acc : Nat) :
    b.foldl (fun a x => a * 256 + x) acc = acc * 256 ^ b.length + beBytesToNat b := by
  induction b generalizing acc with
  | nil => simp [beBytesToNat]
  | cons x xs ih =>
    simp only [List.foldl_cons, List.length_cons, beBytesToNat]
    rw [ih, ih (0 * 256 + x)]
    ring

theorem beBytesToNat_cons (x : Nat) (xs : List Nat) :
    beBytesToNat (x :: xs) = x * 256 ^ xs.length + beBytesToNat xs := by
  simp only [beBytesToNat, List.foldl_cons]
  rw [beBytesToNat_foldl]
  simp [beBytesToNat]

theorem beBytesToNat_append (xs ys : List Nat) :
    beBytesToNat (xs ++ ys) = beBytesToNat xs * 256 ^ ys.length + beBytesToNat ys := by
  simp only [beBytesToNat, List.foldl_append]
  rw [beBytesToNat_foldl]
  simp [beBytesToNat]

theorem beBytesToNat_lt (b : List Nat) (hb : ∀ x ∈ b, x < 256) :
    beBytesToNat b < 256 ^ b.length := by
  induction b with
  | nil => simp [beBytesToNat]
  | cons x xs ih =>
    rw [beBytesToNat_cons]
    have hx : x < 256 := hb x (List.mem_cons_self _ _)
    have hxs := ih (fun y hy => hb y (List.mem_cons_of_mem _ hy))
    have : (x + 1) * 256 ^ xs.length ≤ 256 * 256 ^ xs.length :=
      Nat.mul_le_mul_right _ (by omega)
    simp only [List.length_cons, Nat.pow_succ]
    nlinarith

/-- Two byte strings of the same length with the same value are equal. -/
theorem beBytesToNat_inj : ∀ (xs ys : List Nat), xs.length = ys.length →
    (∀ x ∈ xs, x < 256) → (∀ y ∈ ys, y < 256) → beBytesToNat xs = beBytesToNat ys → xs = ys
  | [], [], _, _, _, _ => rfl
  | [], _ :: _, h, _, _, _ => by simp at h
  | _ :: _, [], h, _, _, _ => by simp at h
  | x :: xs, y :: ys, h, hx, hy, he => by
    have hl : xs.length = ys.length := by simpa using h
    rw [beBytesToNat_cons, beBytesToNat_cons, hl] at he
    have h1 := beBytesToNat_lt xs (fun z hz => hx z (List.mem_cons_of_mem _ hz))
    have h2 := beBytesToNat_lt ys (fun z hz => hy z (List.mem_cons_of_mem _ hz))
    rw [hl] at h1
    have hp : 0 < 256 ^ ys.length := by positivity
    have hxy : x = y := by
      have e1 : (x * 256 ^ ys.length + beBytesToNat xs) / 256 ^ ys.length = x := by
        rw [Nat.add_comm, Nat.add_mul_div_right _ _ hp, Nat.div_eq_of_lt h1]; simp
      have e2 : (y * 256 ^ ys.length + beBytesToNat ys) / 256 ^ ys.length = y := by
        rw [Nat.add_comm, Nat.add_mul_div_right _ _ hp, Nat.div_eq_of_lt h2]; simp
      rw [← e1, ← e2, he]
    subst hxy
    have hr : beBytesToNat xs = beBytesToNat ys := by omega
    rw [beBytesToNat_inj xs ys hl (fun z hz => hx z (List.mem_cons_of_mem _ hz))
      (fun z hz => hy z (List.mem_cons_of_mem _ hz)) hr]

/-- The value of a bytewise AND is the AND of the values. -/
theorem beBytesToNat_zipWith_and : ∀ (xs ms : List Nat), xs.length = ms.length →
    (∀ x ∈ xs, x < 256) → (∀ m ∈ ms, m < 256) →
    beBytesToNat (List.zipWith (fun x m => x &&& m) xs ms) = beBytesToNat xs &&& beBytesToNat ms := by
  intro xs
  induction xs using List.reverseRecOn with
  | nil => intro ms h _ _; simp [beBytesToNat]
  | append_singleton xs x ih =>
    intro ms h hx hm
    rcases List.eq_nil_or_concat ms with hms | ⟨ms1, m, hms⟩
    · subst hms; simp at h
    · subst hms
      have hl : xs.length = ms1.length := by simpa using h
      rw [List.concat_eq_append] at *
      rw [List.zipWith_append _ _ _ _ _ hl]
      simp only [List.zipWith_cons_cons, List.zipWith_nil_right]
      rw [beBytesToNat_append, beBytesToNat_append, beBytesToNat_append]
      have hxb : x < 256 := hx x (by simp)
      have hmb : m < 256 := hm m (by simp)
      rw [ih ms1 hl (fun z hz => hx z (by simp [hz])) (fun z hz => hm z (by simp [hz]))]
      simp only [List.length_singleton, pow_one]
      have e1 : beBytesToNat [x] = x := by simp [beBytesToNat]
      have e2 : beBytesToNat [m] = m := by simp [beBytesToNat]
      have e3 : beBytesToNat [x &&& m] = x &&& m := by simp [beBytesToNat]
      rw [e1, e2, e3, and_mul_add hxb hmb]

/-- Every IPv4 prefix mask: four bytes, value `2^32 - 2^(32-n)`, canonical size `(n, 32)`. -/
theorem cidrMask32_facts : ∀ n, n ≤ 32 →
    (CIDRMask n 32).length = 4 ∧ beBytesToNat (CIDRMask n 32) = 2 ^ 32 - 2 ^ (32 - n) ∧
    (∀ x ∈ CIDRMask n 32, x < 256) ∧ IPMaskSize (CIDRMask n 32) = (n, 32) := by
  decide

/-- Every IPv6 prefix mask: sixteen bytes, value `2^128 - 2^(128-n)`, canonical
size `(n, 128)`, and never of the IPv4-mapped shape. -/
theorem cidrMask128_facts : ∀ n, n ≤ 128 →
    (CIDRMask n 128).length = 16 ∧ beBytesToNat (CIDRMask n 128) = 2 ^ 128 - 2 ^ (128 - n) ∧
    (∀ x ∈ CIDRMask n 128, x < 256) ∧ IPMaskSize (CIDRMask n 128) = (n, 128) ∧
    To4 (CIDRMask n 128) = [] := by
  decide

/-! ## Conversions between addresses and integers -/

theorem and_255 (x : Nat) : x &&& 255 = x % 256 := Nat.and_pow_two_sub_one_eq_mod x 8

theorem To4_four (a b c d : Nat) : To4 [a, b, c, d] = [a, b, c, d] := by
  simp [To4, IPv4len]

theorem To4_mapped (a b c d : Nat) : To4 (v4InV6Prefix ++ [a, b, c, d]) = [a, b, c, d] := by
  simp [To4, IPv4len, IPv6len, v4InV6Prefix, isZeros]

theorem To4_of_length_four {ip : IP} (h : ip.length = 4) : To4 ip = ip := by
  simp [To4, IPv4len, h]

theorem To16_of_length_sixteen {ip : IP} (h : ip.length = 16) : To16 ip = ip := by
  simp [To16, IPv4len, IPv6len, h]

theorem beBytesToNat_four (a b c d : Nat) :
    beBytesToNat [a, b, c, d] = a * 2 ^ 24 + b * 2 ^ 16 + c * 2 ^ 8 + d := by
  simp [beBytesToNat]; ring

/-- On four bytes `ip4ToUint32` is the big-endian value. -/
theorem ip4ToUint32_four {a b c d : Nat} (ha : a < 256) (hb : b < 256) (hc : c < 256)
    (hd : d < 256) : ip4ToUint32 [a, b, c, d] = some (a * 2 ^ 24 + b * 2 ^ 16 + c * 2 ^ 8 + d) := by
  have e1 : (a <<< 24) % 2 ^ 32 = a * 2 ^ 24 := by
    rw [Nat.shiftLeft_eq]; apply Nat.mod_eq_of_lt; omega
  have e2 : (b <<< 16) % 2 ^ 32 = b * 2 ^ 16 := by
    rw [Nat.shiftLeft_eq]; apply Nat.mod_eq_of_lt; omega
  have e3 : (c <<< 8) % 2 ^ 32 = c * 2 ^ 8 := by
    rw [Nat.shiftLeft_eq]; apply Nat.mod_eq_of_lt; omega
  have o1 : a * 2 ^ 24 ||| b * 2 ^ 16 = a * 2 ^ 24 + b * 2 ^ 16 :=
    or_eq_add_of_mod (i := 24) (by omega) (by omega)
  have o2 : (a * 2 ^ 24 + b * 2 ^ 16) ||| c * 2 ^ 8 = a * 2 ^ 24 + b * 2 ^ 16 + c * 2 ^ 8 :=
    or_eq_add_of_mod (i := 16) (by omega) (by omega)
  have o3 : (a * 2 ^ 24 + b * 2 ^ 16 + c * 2 ^ 8) ||| d = a * 2 ^ 24 + b * 2 ^ 16 + c * 2 ^ 8 + d :=
    or_eq_add_of_mod (i := 8) (by omega) (by omega)
  simp only [ip4ToUint32, To4_four, List.getElem?_cons_zero, List.getElem?_cons_succ, e1, e2, e3,
    o1, o2, o3]

/-- The bytes of `uint32ToIP n`. -/
theorem uint32ToIP_eq (n : Nat) :
    uint32ToIP n = v4InV6Prefix ++ [n / 2 ^ 24 % 256, n / 2 ^ 16 % 256, n / 2 ^ 8 % 256, n % 256] := by
  simp only [uint32ToIP, IPv4, Nat.shiftRight_eq_div_pow]
  have e : (0xFF : Nat) = 255 := rfl
  simp only [e, and_255, Nat.mod_mod]

theorem ip4ToUint32_uint32ToIP {n : Nat} (h : n < 2 ^ 32) : ip4ToUint32 (uint32ToIP n) = some n := by
  rw [uint32ToIP_eq]
  have hm := To4_mapped (n / 2 ^ 24 % 256) (n / 2 ^ 16 % 256) (n / 2 ^ 8 % 256) (n % 256)
  have h4 := ip4ToUint32_four (a := n / 2 ^ 24 % 256) (b := n / 2 ^ 16 % 256) (c := n / 2 ^ 8 % 256)
    (d := n % 256) (Nat.mod_lt _ (by decide)) (Nat.mod_lt _ (by decide)) (Nat.mod_lt _ (by decide))
    (Nat.mod_lt _ (by decide))
  unfold ip4ToUint32 at h4 ⊢
  rw [To4_four] at h4
  rw [hm, h4]
  congr 1
  omega

theorem As16_length (a : Addr) : a.As16.length = 16 := by simp [Addr.As16]

theorem As16_bytes (a : Addr) : ∀ x ∈ a.As16, x < 256 := by
  intro x hx
  simp only [Addr.As16, List.mem_map] at hx
  obtain ⟨k, _, rfl⟩ := hx
  exact Nat.mod_lt _ (by decide)

/-- The `L` low base-256 digits of `x`, most significant first, have value `x % 256^L`. -/
theorem beBytesToNat_digits (L x : Nat) :
    beBytesToNat ((List.range L).map (fun k => x / 256 ^ (L - 1 - k) % 256)) = x % 256 ^ L := by
  induction L with
  | zero => simp [beBytesToNat, Nat.mod_one]
  | succ L ih =>
    rw [List.range_succ_eq_map, List.map_cons, List.map_map, beBytesToNat_cons]
    have hfun : ((fun k => x / 256 ^ (L + 1 - 1 - k) % 256) ∘ Nat.succ) =
        (fun k => x / 256 ^ (L - 1 - k) % 256) := by
      funext k
      simp only [Function.comp, Nat.succ_eq_add_one]
      congr 3
      omega
    rw [hfun, ih]
    simp only [List.length_map, List.length_range, Nat.add_sub_cancel, Nat.sub_zero]
    rw [Nat.mod_pow_succ]
    ring

theorem beBytesToNat_As16 (a : Addr) : beBytesToNat a.As16 = a.addr % 2 ^ 128 := by
  have h := beBytesToNat_digits 16 a.addr
  have hfun : (fun k => (a.addr >>> (8 * (15 - k))) % 256) =
      (fun k => a.addr / 256 ^ (16 - 1 - k) % 256) := by
    funext k
    rw [Nat.shiftRight_eq_div_pow, Nat.pow_mul]
  rw [Addr.As16, hfun, h]
  norm_num

theorem As16_AddrFrom4 {a b c d : Nat} (ha : a < 256) (hb : b < 256) (hc : c < 256)
    (hd : d < 256) : (AddrFrom4 a b c d).As16 = v4InV6Prefix ++ [a, b, c, d] := by
  have o0 : 0xffff00000000 ||| a <<< 24 = 0xffff00000000 + a * 2 ^ 24 := by
    rw [Nat.shiftLeft_eq]; exact or_eq_add_of_mod (i := 32) (by decide) (by omega)
  have o1 : (0xffff00000000 + a * 2 ^ 24) ||| b <<< 16 = 0xffff00000000 + a * 2 ^ 24 + b * 2 ^ 16 := by
    rw [Nat.shiftLeft_eq]; exact or_eq_add_of_mod (i := 24) (by omega) (by omega)
  have o2 : (0xffff00000000 + a * 2 ^ 24 + b * 2 ^ 16) ||| c <<< 8 =
      0xffff00000000 + a * 2 ^ 24 + b * 2 ^ 16 + c * 2 ^ 8 := by
    rw [Nat.shiftLeft_eq]; exact or_eq_add_of_mod (i := 16) (by omega) (by omega)
  have o3 : (0xffff00000000 + a * 2 ^ 24 + b * 2 ^ 16 + c * 2 ^ 8) ||| d =
      0xffff00000000 + a * 2 ^ 24 + b * 2 ^ 16 + c * 2 ^ 8 + d :=
    or_eq_add_of_mod (i := 8) (by omega) (by omega)
  have hv : (AddrFrom4 a b c d).addr = 0xffff00000000 + a * 2 ^ 24 + b * 2 ^ 16 + c * 2 ^ 8 + d := by
    simp only [AddrFrom4, o0, o1, o2, o3]
  apply beBytesToNat_inj
  · simp [As16_length, v4InV6Prefix]
  · exact As16_bytes _
  · intro y hy
    simp only [v4InV6Prefix, List.cons_append, List.nil_append, List.mem_cons, List.mem_singleton,
      List.mem_nil_iff, or_false] at hy
    omega
  · rw [beBytesToNat_As16, hv]
    simp only [v4InV6Prefix, List.cons_append, List.nil_append, beBytesToNat, List.foldl_cons,
      List.foldl_nil]
    omega

/-- For an address parsed from dotted decimal, `ip.To4()` is not `nil`. -/
theorem To4_As16_AddrFrom4 {a b c d : Nat} (ha : a < 256) (hb : b < 256) (hc : c < 256)
    (hd : d < 256) : To4 (AddrFrom4 a b c d).As16 = [a, b, c, d] := by
  rw [As16_AddrFrom4 ha hb hc hd, To4_mapped]

/-! ## `big.Int.Bytes` and `bigIntToIP` -/

theorem bigBytesAux_value : ∀ (fuel n : Nat) (acc : List Nat), n ≤ fuel →
    beBytesToNat (bigBytesAux fuel n acc) = n * 256 ^ acc.length + beBytesToNat acc
  | 0, n, acc, h => by
    have : n = 0 := by omega
    subst this
    simp [bigBytesAux]
  | fuel + 1, n, acc, h => by
    unfold bigBytesAux
    by_cases hn : n = 0
    · subst hn; simp
    · simp only [hn, if_false]
      have hle : n / 256 ≤ fuel := by omega
      rw [bigBytesAux_value fuel (n / 256) (n % 256 :: acc) hle, beBytesToNat_cons,
        List.length_cons, Nat.pow_succ]
      have := Nat.div_add_mod n 256
      have e : n / 256 * (256 ^ acc.length * 256) + (n % 256 * 256 ^ acc.length + beBytesToNat acc)
          = (256 * (n / 256) + n % 256) * 256 ^ acc.length + beBytesToNat acc := by ring
      rw [e, this]

theorem bigBytesAux_bytes : ∀ (fuel n : Nat) (acc : List Nat), (∀ x ∈ acc, x < 256) →
    ∀ x ∈ bigBytesAux fuel n acc, x < 256
  | 0, n, acc, h => by simpa [bigBytesAux] using h
  | fuel + 1, n, acc, h => by
    unfold bigBytesAux
    by_cases hn : n = 0
    · simpa [hn] using h
    · simp only [hn, if_false]
      apply bigBytesAux_bytes
      intro x hx
      rcases List.mem_cons.mp hx with rfl | hx
      · exact Nat.mod_lt _ (by decide)
      · exact h x hx

theorem bigBytesAux_length : ∀ (fuel n : Nat) (acc : List Nat) (k : Nat), n < 256 ^ k →
    (bigBytesAux fuel n acc).length ≤ k + acc.length
  | 0, n, acc, k, _ => by simp [bigBytesAux]
  | fuel + 1, n, acc, k, h => by
    unfold bigBytesAux
    by_cases hn : n = 0
    · simp [hn]
    · simp only [hn, if_false]
      cases k with
      | zero => simp at h; omega
      | succ k =>
        have hlt : n / 256 < 256 ^ k := by
          rw [Nat.div_lt_iff_lt_mul (by decide)]
          rw [Nat.pow_succ] at h
          exact h
        have := bigBytesAux_length fuel (n / 256) (n % 256 :: acc) k hlt
        simp only [List.length_cons] at this
        omega

theorem beBytesToNat_replicate_zero (k : Nat) : beBytesToNat (List.replicate k 0) = 0 := by
  induction k with
  | zero => simp [beBytesToNat]
  | succ k ih => rw [List.replicate_succ, beBytesToNat_cons, ih]; simp

/-- For a value below `2^128`, `bigIntToIP(v, false)` is the 16-byte big-endian form of `v`. -/
theorem bigIntToIP_facts {v : Nat} (hv : v < 2 ^ 128) :
    (bigIntToIP v false).length = 16 ∧ beBytesToNat (bigIntToIP v false) = v ∧
    (∀ x ∈ bigIntToIP v false, x < 256) := by
  have hval : beBytesToNat (bigBytes v) = v := by
    have := bigBytesAux_value v v [] (Nat.le_refl v)
    simpa [bigBytes, beBytesToNat] using this
  have hbytes : ∀ x ∈ bigBytes v, x < 256 := bigBytesAux_bytes v v [] (by simp)
  have hlen : (bigBytes v).length ≤ 16 := by
    have h256 : v < 256 ^ 16 := by norm_num at hv ⊢; exact hv
    have := bigBytesAux_length v v [] 16 h256
    simpa [bigBytes] using this
  simp only [bigIntToIP, Bool.false_eq_true, if_false]
  by_cases hl : (bigBytes v).length < 16
  · simp only [hl, if_true]
    refine ⟨?_, ?_, ?_⟩
    · simp; omega
    · rw [beBytesToNat_append, beBytesToNat_replicate_zero, hval]; simp
    · intro x hx
      rcases List.mem_append.mp hx with hx | hx
      · have := (List.mem_replicate.mp hx).2
        omega
      · exact hbytes x hx
  · simp only [hl, if_false]
    exact ⟨by omega, hval, hbytes⟩

theorem ipToBigInt_bigIntToIP {v : Nat} (hv : v < 2 ^ 128) : ipToBigInt (bigIntToIP v false) = v := by
  obtain ⟨hl, hval, _⟩ := bigIntToIP_facts hv
  rw [ipToBigInt, To16_of_length_sixteen hl, hval]

theorem uint32ToIP_length (n : Nat) : (uint32ToIP n).length = 16 := by
  simp [uint32ToIP_eq, v4InV6Prefix]

theorem ipToBigInt_uint32ToIP {n : Nat} (h : n < 2 ^ 32) :
    ipToBigInt (uint32ToIP n) = 0xffff00000000 + n := by
  rw [ipToBigInt, To16_of_length_sixteen (uint32ToIP_length n), uint32ToIP_eq]
  simp only [v4InV6Prefix, List.cons_append, List.nil_append, beBytesToNat, List.foldl_cons,
    List.foldl_nil]
  omega

/-! ## `IP.Mask` -/

/-- Masking an IPv4-mapped 16-byte address with a 4-byte mask acts on its last four bytes. -/
theorem IPMaskApply_mapped {l m : List Nat} (hl : l.length = 4) (hm : m.length = 4) :
    IPMaskApply (v4InV6Prefix ++ l) m = List.zipWith (fun x m => x &&& m) l m := by
  have h1 : (v4InV6Prefix ++ l).length = 16 := by simp [v4InV6Prefix, hl]
  have h2 : (v4InV6Prefix ++ l).take 12 = v4InV6Prefix := by simp [v4InV6Prefix]
  have h3 : (v4InV6Prefix ++ l).drop 12 = l := by simp [v4InV6Prefix]
  simp only [IPMaskApply, hm, h1, h2, h3, IPv4len, IPv6len]
  simp [hl, hm]

/-- Masking a 16-byte address with a 16-byte mask is the bytewise AND. -/
theorem IPMaskApply_sixteen {ip m : List Nat} (hl : ip.length = 16) (hm : m.length = 16) :
    IPMaskApply ip m = List.zipWith (fun x m => x &&& m) ip m := by
  simp [IPMaskApply, hm, hl, IPv4len, IPv6len]

theorem zipWith_and_bytes {xs ms : List Nat} (hx : ∀ x ∈ xs, x < 256) :
    ∀ y ∈ List.zipWith (fun x m => x &&& m) xs ms, y < 256 := by
  induction xs generalizing ms with
  | nil => simp
  | cons x xs ih =>
    cases ms with
    | nil => simp
    | cons m ms =>
      intro y hy
      simp only [List.zipWith_cons_cons, List.mem_cons] at hy
      rcases hy with rfl | hy
      · have := hx x (List.mem_cons_self _ _)
        have := @Nat.and_le_left x m
        omega
      · exact ih (fun z hz => hx z (List.mem_cons_of_mem _ hz)) y hy

/-! ## What `ParseCIDR` returns -/

theorem set_bytes {l : List Nat} (h : ∀ x ∈ l, x < 256) {v : Nat} (hv : v < 256) (i : Nat) :
    ∀ x ∈ l.set i v, x < 256 := by
  intro x hx
  rcases List.mem_or_eq_of_mem_set hx with h1 | h1
  · exact h x h1
  · omega

theorem getD_bytes {l : List Nat} (h : ∀ x ∈ l, x < 256) (i : Nat) : l.getD i 0 < 256 := by
  rw [List.getD_eq_getElem?_getD]
  cases hi : l[i]? with
  | none => simp
  | some x =>
    have := List.getElem?_mem hi
    simpa using h x this

theorem parseIPv4FieldsLoop_bytes : ∀ (s : List Char) (i : Nat) (prev : Option Char)
    (val pos digLen : Nat) (fields : List Nat) (r : Nat × Nat × List Nat),
    (∀ x ∈ fields, x < 256) →
    parseIPv4FieldsLoop s i prev val pos digLen fields = some r → ∀ x ∈ r.2.2, x < 256
  | [], i, prev, val, pos, digLen, fields, r, hf, h => by
    simp only [parseIPv4FieldsLoop, Option.some.injEq] at h
    subst h
    exact hf
  | c :: rest, i, prev, val, pos, digLen, fields, r, hf, h => by
    unfold parseIPv4FieldsLoop at h
    simp only at h
    split at h
    · split at h
      · exact absurd h (by simp)
      · split at h
        · exact absurd h (by simp)
        · exact parseIPv4FieldsLoop_bytes rest _ _ _ _ _ _ r hf h
    · split at h
      · split at h
        · exact absurd h (by simp)
        · split at h
          · exact absurd h (by simp)
          · exact parseIPv4FieldsLoop_bytes rest _ _ _ _ _ _ r
              (set_bytes hf (Nat.mod_lt _ (by decide)) _) h
      · exact absurd h (by simp)

theorem parseIPv4Fields_bytes {s : List Char} {f : List Nat} (h : parseIPv4Fields s = some f) :
    ∀ x ∈ f, x < 256 := by
  unfold parseIPv4Fields at h
  split at h
  · exact absurd h (by simp)
  · rename_i val pos fields heq
    split at h
    · exact absurd h (by simp)
    · simp only [Option.some.injEq] at h
      subst h
      have := parseIPv4FieldsLoop_bytes s 0 none 0 0 0 [0, 0, 0, 0] (val, pos, fields)
        (by intro x hx; simp at hx; omega) heq
      exact set_bytes this (Nat.mod_lt _ (by decide)) _

/-- The address `parseIPv4` returns is built from four bytes. -/
theorem parseIPv4_some {s : List Char} {a : Addr} (h : parseIPv4 s = some a) :
    ∃ b0 b1 b2 b3, b0 < 256 ∧ b1 < 256 ∧ b2 < 256 ∧ b3 < 256 ∧ a = AddrFrom4 b0 b1 b2 b3 := by
  unfold parseIPv4 at h
  split at h
  · exact absurd h (by simp)
  · rename_i fields heq
    simp only [Option.some.injEq] at h
    have hb := parseIPv4Fields_bytes heq
    exact ⟨_, _, _, _, getD_bytes hb 0, getD_bytes hb 1, getD_bytes hb 2, getD_bytes hb 3, h.symm⟩

theorem WithZone_AddrFrom16 (ip : List Nat) (zone : List Char) :
    (Addr.WithZone (AddrFrom16 ip) zone).hasZone = false →
    Addr.WithZone (AddrFrom16 ip) zone = { addr := beBytesToNat ip % 2 ^ 128, z := AddrKind.z6noz } := by
  intro h
  unfold Addr.WithZone at h ⊢
  by_cases hz : zone = []
  · simp [hz, AddrFrom16]
  · simp [hz, Addr.hasZone] at h

/-- An address without zone returned by `parseIPv6` is a 128-bit value tagged IPv6. -/
theorem parseIPv6_some {s : List Char} {a : Addr} (h : parseIPv6 s = some a)
    (hz : a.hasZone = false) : ∃ v, v < 2 ^ 128 ∧ a = { addr := v, z := AddrKind.z6noz } := by
  have key : ∀ (ip : List Nat) (zone : List Char), a = Addr.WithZone (AddrFrom16 ip) zone →
      ∃ v, v < 2 ^ 128 ∧ a = { addr := v, z := AddrKind.z6noz } := by
    intro ip zone ha
    refine ⟨beBytesToNat ip % 2 ^ 128, Nat.mod_lt _ (by positivity), ?_⟩
    rw [ha]
    apply WithZone_AddrFrom16
    rw [← ha]; exact hz
  unfold parseIPv6 at h
  simp only at h
  repeat' (split at h)
  all_goals first
    | exact key _ _ (Option.some.inj h).symm
    | exact Option.noConfusion h

theorem parseAddrScan_some (whole : List Char) : ∀ (rest : List Char) (a : Addr),
    parseAddrScan whole rest = some a → parseIPv4 whole = some a ∨ parseIPv6 whole = some a
  | [], a, h => by simp [parseAddrScan] at h
  | c :: rest, a, h => by
    unfold parseAddrScan at h
    split at h
    · exact Or.inl h
    · split at h
      · exact Or.inr h
      · split at h
        · exact absurd h (by simp)
        · exact parseAddrScan_some whole rest a h

/-- The two shapes of an accepted CIDR: an IPv4 text gives an IPv4-mapped `ip`,
a 4-byte mask `CIDRMask n 32` and the 4-byte masked network; an IPv6 text gives
the sixteen bytes of a 128-bit value, the mask `CIDRMask n 128` and the 16-byte
masked network. -/
theorem ParseCIDR_cases {s : String} {ip : IP} {ipNet : IPNet}
    (h : ParseCIDR s = some (ip, ipNet)) :
    (∃ a b c d n, a < 256 ∧ b < 256 ∧ c < 256 ∧ d < 256 ∧ n ≤ 32 ∧
      ip = v4InV6Prefix ++ [a, b, c, d] ∧ ipNet.Mask = CIDRMask n 32 ∧
      ipNet.IP = List.zipWith (fun x m => x &&& m) [a, b, c, d] (CIDRMask n 32)) ∨
    (∃ v n, v < 2 ^ 128 ∧ n ≤ 128 ∧ ip.length = 16 ∧ (∀ x ∈ ip, x < 256) ∧
      beBytesToNat ip = v ∧ ipNet.Mask = CIDRMask n 128 ∧
      ipNet.IP = List.zipWith (fun x m => x &&& m) ip (CIDRMask n 128)) := by
  unfold ParseCIDR at h
  simp only at h
  split at h
  · exact absurd h (by simp)
  · split at h
    · exact absurd h (by simp)
    · rename_i ipAddr hpa
      split at h
      · exact absurd h (by simp)
      · rename_i hzone
        split at h
        · exact absurd h (by simp)
        · rename_i hdt
          simp only [not_or, not_not, Nat.not_lt] at hdt
          simp only [Option.some.injEq, Prod.mk.injEq] at h
          obtain ⟨hip, hnet⟩ := h
          have hzone2 : ipAddr.hasZone = false := by simpa using hzone
          rcases parseAddrScan_some _ _ _ hpa with h4 | h6
          · obtain ⟨a, b, c, d, ha, hb, hc, hd, rfl⟩ := parseIPv4_some h4
            left
            have hbl : (AddrFrom4 a b c d).BitLen = 32 := rfl
            rw [hbl] at hdt hnet
            have hn := hdt.2.2
            have hlen := (cidrMask32_facts _ hn).1
            refine ⟨a, b, c, d, _, ha, hb, hc, hd, hn, ?_, ?_, ?_⟩
            · rw [← hip, As16_AddrFrom4 ha hb hc hd]
            · rw [← hnet]
            · rw [← hnet, As16_AddrFrom4 ha hb hc hd]
              dsimp only
              rw [IPMaskApply_mapped (by simp) hlen]
          · obtain ⟨v, hv, rfl⟩ := parseIPv6_some h6 hzone2
            right
            have hbl : (Addr.mk v AddrKind.z6noz).BitLen = 128 := rfl
            rw [hbl] at hdt hnet
            have hn := hdt.2.2
            have hlen := (cidrMask128_facts _ hn).1
            refine ⟨v, _, hv, hn, ?_, ?_, ?_, ?_, ?_⟩
            · rw [← hip]; exact As16_length _
            · rw [← hip]; exact As16_bytes _
            · rw [← hip, beBytesToNat_As16]; exact Nat.mod_eq_of_lt hv
            · rw [← hnet]
            · rw [← hnet, ← hip]
              dsimp only
              rw [IPMaskApply_sixteen (As16_length _) hlen]

/-! ## The two loops -/

/-- The IPv4 loop started at `i ≤ broadcast` prints `i, i+1, ..., broadcast-1` and
needs `broadcast - i + 1` rounds (the last one is the failing test). -/
theorem hostLoop4_eq : ∀ (fuel broadcast i : Nat), i ≤ broadcast → broadcast < 2 ^ 32 →
    hostLoop4 fuel broadcast i =
      if broadcast - i < fuel then some ((List.range' i (broadcast - i)).map uint32ToIP) else none
  | 0, b, i, _, _ => by simp [hostLoop4]
  | fuel + 1, b, i, hi, hb => by
    unfold hostLoop4
    by_cases hlt : i < b
    · have hmod : (i + 1) % 2 ^ 32 = i + 1 := Nat.mod_eq_of_lt (by omega)
      rw [if_pos hlt, hmod, hostLoop4_eq fuel b (i + 1) (by omega) hb]
      have hr : List.range' i (b - i) = i :: List.range' (i + 1) (b - (i + 1)) := by
        have : b - i = (b - (i + 1)) + 1 := by omega
        rw [this, List.range'_succ]
      by_cases hf : b - (i + 1) < fuel
      · have hf2 : b - i < fuel + 1 := by omega
        rw [if_pos hf, if_pos hf2, hr]
        simp
      · have hf2 : ¬ b - i < fuel + 1 := by omega
        rw [if_neg hf, if_neg hf2]
        simp
    · have hib : b - i = 0 := by omega
      rw [if_neg hlt, hib]
      simp

/-- The IPv6 loop started at `i ≤ total` prints `network + j` for `j = i, ..., total-1`
and needs `total - i + 1` rounds. -/
theorem hostLoop6_eq : ∀ (fuel total networkInt i : Nat), i ≤ total →
    hostLoop6 fuel total networkInt i =
      if total - i < fuel then
        some ((List.range' i (total - i)).map (fun j => bigIntToIP (networkInt + j) false))
      else none
  | 0, t, n, i, _ => by simp [hostLoop6]
  | fuel + 1, t, n, i, hi => by
    unfold hostLoop6
    by_cases hlt : i < t
    · rw [if_pos hlt, hostLoop6_eq fuel t n (i + 1) (by omega)]
      have hr : List.range' i (t - i) = i :: List.range' (i + 1) (t - (i + 1)) := by
        have : t - i = (t - (i + 1)) + 1 := by omega
        rw [this, List.range'_succ]
      by_cases hf : t - (i + 1) < fuel
      · have hf2 : t - i < fuel + 1 := by omega
        rw [if_pos hf, if_pos hf2, hr]
        simp
      · have hf2 : ¬ t - i < fuel + 1 := by omega
        rw [if_neg hf, if_neg hf2]
        simp
    · have hib : t - i = 0 := by omega
      rw [if_neg hlt, hib]
      simp

/-! ## `extractIPsFromCIDR` branch by branch -/

theorem extract_parse_error {s : String} (h : ParseCIDR s = none) (fuel : Nat) :
    extractIPsFromCIDR fuel s = some (Outcome.parseError (parseErrorText s)) := by
  simp [extractIPsFromCIDR, h]

theorem extract_v4_branch {s : String} {ip : IP} {ipNet : IPNet} {start mask : Nat}
    (h : ParseCIDR s = some (ip, ipNet)) (h4 : To4 ip ≠ [])
    (hs : ip4ToUint32 (To4 ipNet.IP) = some start)
    (hm : ip4ToUint32 (To4 ipNet.Mask) = some mask) (fuel : Nat) :
    extractIPsFromCIDR fuel s =
      if totalOf (broadcastOf start mask) start > 2 then
        (hostLoop4 fuel (broadcastOf start mask) ((start + 1) % 2 ^ 32)).map Outcome.done
      else some (Outcome.done []) := by
  simp only [extractIPsFromCIDR, h, hs, hm]
  rw [if_pos h4]

theorem extract_v4_panic {s : String} {ip : IP} {ipNet : IPNet}
    (h : ParseCIDR s = some (ip, ipNet)) (h4 : To4 ip ≠ [])
    (hm : ip4ToUint32 (To4 ipNet.Mask) = none) (fuel : Nat) :
    extractIPsFromCIDR fuel s = some Outcome.panic := by
  simp only [extractIPsFromCIDR, h, hm]
  rw [if_pos h4]
  cases ip4ToUint32 (To4 ipNet.IP) <;> rfl

theorem extract_v6_branch {s : String} {ip : IP} {ipNet : IPNet}
    (h : ParseCIDR s = some (ip, ipNet)) (h4 : To4 ip = []) (fuel : Nat) :
    extractIPsFromCIDR fuel s =
      if 1 <<< ((IPMaskSize ipNet.Mask).2 - (IPMaskSize ipNet.Mask).1) > 1 then
        (hostLoop6 fuel (1 <<< ((IPMaskSize ipNet.Mask).2 - (IPMaskSize ipNet.Mask).1))
          (ipToBigInt ipNet.IP) 1).map Outcome.done
      else some (Outcome.done []) := by
  simp only [extractIPsFromCIDR, h]
  rw [if_neg (by simpa using h4)]

theorem ip4ToUint32_of_length_four : ∀ (l : List Nat), l.length = 4 → (∀ x ∈ l, x < 256) →
    ip4ToUint32 l = some (beBytesToNat l)
  | [a, b, c, d], _, hb => by
    rw [ip4ToUint32_four (hb a (by simp)) (hb b (by simp)) (hb c (by simp)) (hb d (by simp)),
      beBytesToNat_four]
  | [], h, _ => by simp at h
  | [_], h, _ => by simp at h
  | [_, _], h, _ => by simp at h
  | [_, _, _], h, _ => by simp at h
  | _ :: _ :: _ :: _ :: _ :: _, h, _ => by simp at h

theorem ip4ToUint32_nil : ip4ToUint32 [] = none := by decide

/-- A block of `2^h` addresses aligned inside `W` bits ends inside `W` bits. -/
theorem aligned_block_le {X W h : Nat} (hX : X < 2 ^ W) (hh : h ≤ W) :
    X / 2 ^ h * 2 ^ h + 2 ^ h ≤ 2 ^ W := by
  have hpos : 0 < 2 ^ h := Nat.two_pow_pos h
  have hsplit : 2 ^ W = 2 ^ (W - h) * 2 ^ h := by
    rw [← Nat.pow_add]; congr 1; omega
  have hq : X / 2 ^ h < 2 ^ (W - h) := by
    rw [Nat.div_lt_iff_lt_mul hpos, ← hsplit]; exact hX
  calc X / 2 ^ h * 2 ^ h + 2 ^ h = (X / 2 ^ h + 1) * 2 ^ h := by ring
    _ ≤ 2 ^ (W - h) * 2 ^ h := Nat.mul_le_mul_right _ hq
    _ = 2 ^ W := hsplit.symm

/-! ## Accepted IPv4 CIDRs -/

/-- An accepted CIDR whose mask has size `(p, 32)`: the address was written in
dotted decimal, the mask is `CIDRMask p 32`, and the network address is four
bytes whose value is a multiple of `2^(32-p)` with the whole block below `2^32`. -/
theorem ipv4_parse_facts {s : String} {ip : IP} {ipNet : IPNet} {p : Nat}
    (h : ParseCIDR s = some (ip, ipNet)) (hsz : IPMaskSize ipNet.Mask = (p, 32)) :
    p ≤ 32 ∧ To4 ip ≠ [] ∧ ipNet.Mask = CIDRMask p 32 ∧ ipNet.IP.length = 4 ∧
    (∀ x ∈ ipNet.IP, x < 256) ∧ beBytesToNat ipNet.IP % 2 ^ (32 - p) = 0 ∧
    beBytesToNat ipNet.IP + 2 ^ (32 - p) ≤ 2 ^ 32 := by
  rcases ParseCIDR_cases h with ⟨a, b, c, d, n, ha, hb, hc, hd, hn, hip, hmask, hnet⟩ |
    ⟨v, n, hv, hn, hlen, hbytes, hval, hmask, hnet⟩
  · obtain ⟨mlen, mval, mbytes, msize⟩ := cidrMask32_facts n hn
    rw [hmask, msize] at hsz
    have hpn : n = p := by simpa using hsz
    subst hpn
    have habcd : ∀ x ∈ [a, b, c, d], x < 256 := by
      intro x hx
      simp only [List.mem_cons, List.mem_singleton, List.mem_nil_iff, or_false] at hx
      omega
    have hX : beBytesToNat [a, b, c, d] < 2 ^ 32 := by
      have h1 := beBytesToNat_lt [a, b, c, d] habcd
      have h2 : 256 ^ [a, b, c, d].length = 2 ^ 32 := by
        rw [List.length_cons, List.length_cons, List.length_cons, List.length_singleton]
        norm_num
      rw [h2] at h1
      exact h1
    have hstart : beBytesToNat ipNet.IP =
        beBytesToNat [a, b, c, d] / 2 ^ (32 - n) * 2 ^ (32 - n) := by
      rw [hnet, beBytesToNat_zipWith_and _ _ (by simp [mlen]) habcd mbytes, mval,
        and_high_mask hX (by omega)]
    refine ⟨hn, ?_, hmask, ?_, ?_, ?_, ?_⟩
    · rw [hip, To4_mapped]; simp
    · rw [hnet]; simp [mlen]
    · rw [hnet]; exact zipWith_and_bytes habcd
    · rw [hstart]; exact Nat.mul_mod_left _ _
    · rw [hstart]; exact aligned_block_le hX (by omega)
  · obtain ⟨_, _, _, msize, _⟩ := cidrMask128_facts n hn
    rw [hmask, msize] at hsz
    simp at hsz

/-- The `uint32` values of `extractIPsFromCIDR` for a network aligned to
`2^h` with `h ≤ 32`: `broadcast = start + 2^h - 1`, and `total` is `2^h` reduced
modulo `2^32` (so it is `0` for `h = 32`). -/
theorem broadcast_total {start h : Nat} (hh : h ≤ 32) (hal : start % 2 ^ h = 0)
    (hle : start + 2 ^ h ≤ 2 ^ 32) :
    broadcastOf start (2 ^ 32 - 2 ^ h) = start + 2 ^ h - 1 ∧
    totalOf (broadcastOf start (2 ^ 32 - 2 ^ h)) start = 2 ^ h % 2 ^ 32 := by
  have hpos : 0 < 2 ^ h := Nat.two_pow_pos h
  have hb : broadcastOf start (2 ^ 32 - 2 ^ h) = start + 2 ^ h - 1 := by
    have e : (0xFFFFFFFF : Nat) = 2 ^ 32 - 1 := by norm_num
    rw [broadcastOf, e, high_mask_xor hh, or_eq_add_of_mod hal (by omega)]
    omega
  refine ⟨hb, ?_⟩
  rw [hb, totalOf]
  have : start + 2 ^ h - 1 + 2 ^ 32 - start + 1 = 2 ^ h + 2 ^ 32 := by omega
  rw [this, Nat.add_mod_right]

/-- The whole behaviour of `extractIPsFromCIDR` on an accepted IPv4 CIDR of
prefix length `p`: nothing is printed for `p = 0` (the 32-bit `total` wraps to
0) and for `p = 31, 32`; for `1 ≤ p ≤ 30` the addresses
`start+1, ..., start + 2^(32-p) - 2` are printed, using `2^(32-p) - 1` loop rounds. -/
theorem extract_ipv4 {s : String} {ip : IP} {ipNet : IPNet} {p : Nat}
    (h : ParseCIDR s = some (ip, ipNet)) (hsz : IPMaskSize ipNet.Mask = (p, 32)) (fuel : Nat) :
    extractIPsFromCIDR fuel s =
      if 1 ≤ p ∧ p ≤ 30 then
        (if 2 ^ (32 - p) - 2 < fuel then
          some (Outcome.done
            ((List.range' (beBytesToNat ipNet.IP + 1) (2 ^ (32 - p) - 2)).map uint32ToIP))
        else none)
      else some (Outcome.done []) := by
  obtain ⟨hp, h4, hmask, hlen, hbytes, hal, hle⟩ := ipv4_parse_facts h hsz
  obtain ⟨mlen, mval, mbytes, _⟩ := cidrMask32_facts p hp
  have hs : ip4ToUint32 (To4 ipNet.IP) = some (beBytesToNat ipNet.IP) := by
    rw [To4_of_length_four hlen, ip4ToUint32_of_length_four _ hlen hbytes]
  have hm : ip4ToUint32 (To4 ipNet.Mask) = some (2 ^ 32 - 2 ^ (32 - p)) := by
    rw [hmask, To4_of_length_four mlen, ip4ToUint32_of_length_four _ mlen mbytes, mval]
  obtain ⟨hb, ht⟩ := broadcast_total (Nat.sub_le 32 p) hal hle
  rw [extract_v4_branch h h4 hs hm fuel, ht, hb]
  have hpos : 0 < 2 ^ (32 - p) := Nat.two_pow_pos _
  by_cases h0 : p = 0
  · subst h0
    simp
  · by_cases h30 : p ≤ 30
    · have hge : 2 ^ 2 ≤ 2 ^ (32 - p) := Nat.pow_le_pow_right (by decide) (by omega)
      have hlt : 2 ^ (32 - p) ≤ 2 ^ 31 := Nat.pow_le_pow_right (by decide) (by omega)
      have hmod : 2 ^ (32 - p) % 2 ^ 32 = 2 ^ (32 - p) := Nat.mod_eq_of_lt (by omega)
      have hgt : 2 ^ (32 - p) > 2 := by omega
      have hs1 : (beBytesToNat ipNet.IP + 1) % 2 ^ 32 = beBytesToNat ipNet.IP + 1 :=
        Nat.mod_eq_of_lt (by omega)
      rw [hmod, if_pos hgt, if_pos ⟨by omega, h30⟩, hs1,
        hostLoop4_eq fuel _ _ (by omega) (by omega)]
      have hcnt : beBytesToNat ipNet.IP + 2 ^ (32 - p) - 1 - (beBytesToNat ipNet.IP + 1) =
          2 ^ (32 - p) - 2 := by omega
      rw [hcnt]
      by_cases hf : 2 ^ (32 - p) - 2 < fuel
      · simp [hf]
      · simp [hf]
    · have hle2 : 2 ^ (32 - p) ≤ 2 ^ 1 := Nat.pow_le_pow_right (by decide) (by omega)
      have hmod : 2 ^ (32 - p) % 2 ^ 32 = 2 ^ (32 - p) := Nat.mod_eq_of_lt (by omega)
      have hng : ¬ 2 ^ (32 - p) > 2 := by omega
      rw [hmod, if_neg hng, if_neg (by omega)]

/-! ## Accepted IPv6 CIDRs -/

/-- An accepted CIDR whose mask has size `(p, 128)`: the address was written
as IPv6 text, the mask is `CIDRMask p 128` (never of IPv4 shape), and the
network address is sixteen bytes whose value is a multiple of `2^(128-p)` with
the whole block below `2^128`. -/
theorem ipv6_parse_facts {s : String} {ip : IP} {ipNet : IPNet} {p : Nat}
    (h : ParseCIDR s = some (ip, ipNet)) (hsz : IPMaskSize ipNet.Mask = (p, 128)) :
    p ≤ 128 ∧ ip.length = 16 ∧ ipNet.Mask = CIDRMask p 128 ∧ ipNet.IP.length = 16 ∧
    (∀ x ∈ ipNet.IP, x < 256) ∧ ipToBigInt ipNet.IP % 2 ^ (128 - p) = 0 ∧
    ipToBigInt ipNet.IP + 2 ^ (128 - p) ≤ 2 ^ 128 ∧
    ipToBigInt ipNet.IP = beBytesToNat ip / 2 ^ (128 - p) * 2 ^ (128 - p) := by
  rcases ParseCIDR_cases h with ⟨a, b, c, d, n, ha, hb, hc, hd, hn, hip, hmask, hnet⟩ |
    ⟨v, n, hv, hn, hlen, hbytes, hval, hmask, hnet⟩
  · obtain ⟨_, _, _, msize⟩ := cidrMask32_facts n hn
    rw [hmask, msize] at hsz
    simp at hsz
  · obtain ⟨mlen, mval, mbytes, msize, _⟩ := cidrMask128_facts n hn
    rw [hmask, msize] at hsz
    have hpn : n = p := by simpa using hsz
    subst hpn
    have hnlen : ipNet.IP.length = 16 := by rw [hnet]; simp [mlen, hlen]
    have hstart : ipToBigInt ipNet.IP = v / 2 ^ (128 - n) * 2 ^ (128 - n) := by
      rw [ipToBigInt, To16_of_length_sixteen hnlen, hnet,
        beBytesToNat_zipWith_and _ _ (by simp [mlen, hlen]) hbytes mbytes, mval, hval,
        and_high_mask hv (by omega)]
    refine ⟨hn, hlen, hmask, hnlen, ?_, ?_, ?_, ?_⟩
    · rw [hnet]; exact zipWith_and_bytes hbytes
    · rw [hstart]; exact Nat.mul_mod_left _ _
    · rw [hstart]; exact aligned_block_le hv (by omega)
    · rw [hstart, hval]

/-- An accepted IPv6-text CIDR whose address is IPv4-mapped makes
`extractIPsFromCIDR` panic: it takes the IPv4 branch, where `To4` of the
16-byte mask is `nil` and `ip4ToUint32` indexes it. -/
theorem extract_ipv6_mapped {s : String} {ip : IP} {ipNet : IPNet} {p : Nat}
    (h : ParseCIDR s = some (ip, ipNet)) (hsz : IPMaskSize ipNet.Mask = (p, 128))
    (h4 : To4 ip ≠ []) (fuel : Nat) : extractIPsFromCIDR fuel s = some Outcome.panic := by
  obtain ⟨hp, _, hmask, _⟩ := ipv6_parse_facts h hsz
  obtain ⟨_, _, _, _, mto4⟩ := cidrMask128_facts p hp
  apply extract_v4_panic h h4
  rw [hmask, mto4]
  rfl

/-- The whole behaviour of `extractIPsFromCIDR` on an accepted IPv6-text CIDR
of prefix length `p` whose address is not IPv4-mapped: nothing is printed for
`p = 128`; for `p ≤ 127` the addresses `network + 1, ..., network + 2^(128-p) - 1`
are printed, using `2^(128-p)` loop rounds. -/
theorem extract_ipv6 {s : String} {ip : IP} {ipNet : IPNet} {p : Nat}
    (h : ParseCIDR s = some (ip, ipNet)) (hsz : IPMaskSize ipNet.Mask = (p, 128))
    (h4 : To4 ip = []) (fuel : Nat) :
    extractIPsFromCIDR fuel s =
      if p ≤ 127 then
        (if 2 ^ (128 - p) - 1 < fuel then
          some (Outcome.done ((List.range' 1 (2 ^ (128 - p) - 1)).map
            (fun j => bigIntToIP (ipToBigInt ipNet.IP + j) false)))
        else none)
      else some (Outcome.done []) := by
  obtain ⟨hp, _, _, _, _, _, _, _⟩ := ipv6_parse_facts h hsz
  rw [extract_v6_branch h h4 fuel, hsz]
  simp only [Nat.one_shiftLeft]
  by_cases h127 : p ≤ 127
  · have hgt : 2 ^ (128 - p) > 1 := by
      have : 2 ^ 1 ≤ 2 ^ (128 - p) := Nat.pow_le_pow_right (by decide) (by omega)
      omega
    rw [if_pos hgt, if_pos h127, hostLoop6_eq fuel _ _ 1 (by omega)]
    by_cases hf : 2 ^ (128 - p) - 1 < fuel
    · simp [hf]
    · simp [hf]
  · have hp128 : p = 128 := by omega
    subst hp128
    simp

/-- Every accepted CIDR has a mask of size `(p, 32)` or `(p, 128)`. -/
theorem ParseCIDR_family {s : String} {ip : IP} {ipNet : IPNet}
    (h : ParseCIDR s = some (ip, ipNet)) :
    (∃ p, p ≤ 32 ∧ IPMaskSize ipNet.Mask = (p, 32)) ∨
    (∃ p, p ≤ 128 ∧ IPMaskSize ipNet.Mask = (p, 128)) := by
  rcases ParseCIDR_cases h with ⟨a, b, c, d, n, ha, hb, hc, hd, hn, hip, hmask, hnet⟩ |
    ⟨v, n, hv, hn, hlen, hbytes, hval, hmask, hnet⟩
  · left; exact ⟨n, hn, by rw [hmask]; exact (cidrMask32_facts n hn).2.2.2⟩
  · right; exact ⟨n, hn, by rw [hmask]; exact (cidrMask128_facts n hn).2.2.2.1⟩

/-! ## Helper lemmas for the claims -/

/-- Inside an aligned block, clearing the low bits gives the start of the block. -/
theorem div_mul_of_aligned {start i H : Nat} (hH : 0 < H) (hal : start % H = 0)
    (h1 : start ≤ i) (h2 : i < start + H) : i / H * H = start := by
  have hs : start = H * (start / H) := by
    have := Nat.div_add_mod start H
    omega
  obtain ⟨j, rfl⟩ : ∃ j, i = start + j := ⟨i - start, by omega⟩
  have hj : j < H := by omega
  have hq : (start + j) / H = start / H := by
    rw [hs, Nat.mul_add_div hH, Nat.div_eq_of_lt hj, Nat.add_zero, Nat.mul_div_cancel_left _ hH]
  rw [hq, Nat.mul_comm]
  exact hs.symm

/-- A list of images of consecutive numbers is a chain for every relation that
holds between the images of `i` and `i + 1`. -/
theorem chain'_map_range' {α : Type} (f : Nat → α) (S : α → α → Prop) :
    ∀ (n s : Nat), (∀ i, s ≤ i → i + 1 < s + n → S (f i) (f (i + 1))) →
      List.Chain' S ((List.range' s n).map f)
  | 0, s, _ => by simp
  | n + 1, s, H => by
    rw [List.range'_succ, List.map_cons, List.chain'_cons']
    constructor
    · intro y hy
      cases n with
      | zero => simp at hy
      | succ n =>
        rw [List.range'_succ, List.map_cons, List.head?_cons, Option.mem_def,
          Option.some.injEq] at hy
        rw [← hy]
        exact H s (Nat.le_refl s) (by omega)
    · exact chain'_map_range' f S n (s + 1) (fun i h1 h2 => H i (by omega) (by omega))

/-- The text printed for an IPv4 host is dotted decimal, most significant byte first. -/
theorem IPString_uint32ToIP (n : Nat) :
    IPString (uint32ToIP n) =
      String.mk (string4 [n / 2 ^ 24 % 256, n / 2 ^ 16 % 256, n / 2 ^ 8 % 256, n % 256]) := by
  have hl : (uint32ToIP n).length = 16 := uint32ToIP_length n
  have h4 : To4 (uint32ToIP n) = [n / 2 ^ 24 % 256, n / 2 ^ 16 % 256, n / 2 ^ 8 % 256, n % 256] := by
    rw [uint32ToIP_eq, To4_mapped]
  simp [IPString, hl, h4, IPv4len, IPv6len]

/-! ## The claims -/

/-- C1 (code defect): the claim promises `2^(32-p) - 2` host lines for every
IPv4 prefix length `p ≤ 30`, but for `0.0.0.0/0`, an accepted IPv4 CIDR with
`p = 0`, the 32-bit `total` wraps to 0 and the call returns without printing
anything, whatever the fuel; the claim's own example `192.168.0.0/30` does
print `192.168.0.1` and `192.168.0.2`. -/
theorem c1_ipv4_slash_zero_prints_nothing :
    ParseCIDR "0.0.0.0/0" =
        some ([0, 0, 0, 0, 0, 0, 0, 0, 0, 0, 255, 255, 0, 0, 0, 0],
          { IP := [0, 0, 0, 0], Mask := [0, 0, 0, 0] }) ∧
      IPMaskSize [0, 0, 0, 0] = (0, 32) ∧
      (∀ fuel, extractIPsFromCIDR fuel "0.0.0.0/0" = some (Outcome.done [])) ∧
      (extractIPsFromCIDR 3 "192.168.0.0/30").map Outcome.stdout =
        some ["192.168.0.1", "192.168.0.2"] := by
  refine ⟨by decide, by decide, ?_, by decide⟩
  intro fuel
  have h : ParseCIDR "0.0.0.0/0" =
      some ([0, 0, 0, 0, 0, 0, 0, 0, 0, 0, 255, 255, 0, 0, 0, 0],
        { IP := [0, 0, 0, 0], Mask := [0, 0, 0, 0] }) := by decide
  have hsz : IPMaskSize ({ IP := [0, 0, 0, 0], Mask := [0, 0, 0, 0] } : IPNet).Mask = (0, 32) := by
    decide
  rw [extract_ipv4 h hsz fuel]
  simp

/-- C2 (code defect): the claim promises `2^(128-p) - 1` host lines for every
accepted IPv6 CIDR with `p ≤ 127`, but for `::ffff:192.168.0.0/126`, accepted
as IPv6 with `p = 126`, the call panics before printing anything, whatever the
fuel; the claim's own example `2001:db8::/126` does print its three hosts. -/
theorem c2_ipv6_mapped_text_panics :
    ParseCIDR "::ffff:192.168.0.0/126" =
        some ([0, 0, 0, 0, 0, 0, 0, 0, 0, 0, 255, 255, 192, 168, 0, 0],
          { IP := [0, 0, 0, 0, 0, 0, 0, 0, 0, 0, 255, 255, 192, 168, 0, 0],
            Mask := CIDRMask 126 128 }) ∧
      IPMaskSize (CIDRMask 126 128) = (126, 128) ∧
      (∀ fuel, extractIPsFromCIDR fuel "::ffff:192.168.0.0/126" = some Outcome.panic) ∧
      (extractIPsFromCIDR 4 "2001:db8::/126").map Outcome.stdout =
        some ["2001:db8::1", "2001:db8::2", "2001:db8::3"] := by
  have h : ParseCIDR "::ffff:192.168.0.0/126" =
      some ([0, 0, 0, 0, 0, 0, 0, 0, 0, 0, 255, 255, 192, 168, 0, 0],
        { IP := [0, 0, 0, 0, 0, 0, 0, 0, 0, 0, 255, 255, 192, 168, 0, 0],
          Mask := CIDRMask 126 128 }) := by decide
  refine ⟨h, by decide, ?_, by decide⟩
  intro fuel
  exact extract_ipv6_mapped h (p := 126) (by decide) (by decide) fuel

/-- C3: for every accepted IPv4 CIDR with prefix length 31 or 32,
`extractIPsFromCIDR` returns normally without printing any address, whatever
the fuel. -/
theorem c3_ipv4_31_32_print_nothing {s : String} {ip : IP} {ipNet : IPNet} {p : Nat}
    (h : ParseCIDR s = some (ip, ipNet)) (hsz : IPMaskSize ipNet.Mask = (p, 32))
    (hp : p = 31 ∨ p = 32) (fuel : Nat) :
    extractIPsFromCIDR fuel s = some (Outcome.done []) ∧
      (extractIPsFromCIDR fuel s).map Outcome.stdout = some [] := by
  have he : extractIPsFromCIDR fuel s = some (Outcome.done []) := by
    rw [extract_ipv4 h hsz fuel, if_neg (by omega)]
  rw [he]
  exact ⟨rfl, rfl⟩

/-- C3, witness: `192.168.0.0/31` is an accepted IPv4 CIDR of prefix length 31
and prints nothing. -/
theorem c3_ipv4_31_32_print_nothing_witness :
    ParseCIDR "192.168.0.0/31" =
        some ([0, 0, 0, 0, 0, 0, 0, 0, 0, 0, 255, 255, 192, 168, 0, 0],
          { IP := [192, 168, 0, 0], Mask := [255, 255, 255, 254] }) ∧
      IPMaskSize [255, 255, 255, 254] = (31, 32) ∧
      (extractIPsFromCIDR 0 "192.168.0.0/31" = some (Outcome.done []) ∧
        (extractIPsFromCIDR 0 "192.168.0.0/31").map Outcome.stdout = some []) :=
  ⟨by decide, by decide,
    @c3_ipv4_31_32_print_nothing "192.168.0.0/31"
      [0, 0, 0, 0, 0, 0, 0, 0, 0, 0, 255, 255, 192, 168, 0, 0]
      { IP := [192, 168, 0, 0], Mask := [255, 255, 255, 254] } 31
      (by decide) (by decide) (Or.inl rfl) 0⟩

/-- C4: for every accepted IPv6 CIDR with prefix length 128, `extractIPsFromCIDR`
prints no address, whatever the fuel; when the written address is not
IPv4-mapped the call returns normally (`total = 1` is not greater than 1). -/
theorem c4_ipv6_128_prints_nothing {s : String} {ip : IP} {ipNet : IPNet}
    (h : ParseCIDR s = some (ip, ipNet)) (hsz : IPMaskSize ipNet.Mask = (128, 128))
    (fuel : Nat) :
    (extractIPsFromCIDR fuel s).map Outcome.stdout = some [] ∧
      (To4 ip = [] → extractIPsFromCIDR fuel s = some (Outcome.done [])) := by
  by_cases h4 : To4 ip = []
  · have he : extractIPsFromCIDR fuel s = some (Outcome.done []) := by
      rw [extract_ipv6 h hsz h4 fuel, if_neg (by omega)]
    rw [he]
    exact ⟨rfl, fun _ => rfl⟩
  · rw [extract_ipv6_mapped h hsz h4 fuel]
    exact ⟨rfl, fun h' => absurd h' h4⟩

/-- C4, witness: `2001:db8::1/128` is an accepted IPv6 CIDR of prefix length 128
and prints nothing. -/
theorem c4_ipv6_128_prints_nothing_witness :
    ParseCIDR "2001:db8::1/128" =
        some ([32, 1, 13, 184, 0, 0, 0, 0, 0, 0, 0, 0, 0, 0, 0, 1],
          { IP := [32, 1, 13, 184, 0, 0, 0, 0, 0, 0, 0, 0, 0, 0, 0, 1],
            Mask := CIDRMask 128 128 }) ∧
      IPMaskSize (CIDRMask 128 128) = (128, 128) ∧
      ((extractIPsFromCIDR 0 "2001:db8::1/128").map Outcome.stdout = some [] ∧
        (To4 [32, 1, 13, 184, 0, 0, 0, 0, 0, 0, 0, 0, 0, 0, 0, 1] = [] →
          extractIPsFromCIDR 0 "2001:db8::1/128" = some (Outcome.done []))) :=
  ⟨by decide, by decide,
    @c4_ipv6_128_prints_nothing "2001:db8::1/128"
      [32, 1, 13, 184, 0, 0, 0, 0, 0, 0, 0, 0, 0, 0, 0, 1]
      { IP := [32, 1, 13, 184, 0, 0, 0, 0, 0, 0, 0, 0, 0, 0, 0, 1], Mask := CIDRMask 128 128 }
      (by decide) (by decide) 0⟩

/-- C5: for every string that `ParseCIDR` rejects, `extractIPsFromCIDR` prints
no address line, reports exactly one error line (naming the string) and
returns to its caller, whatever the fuel. -/
theorem c5_rejected_string_reports_one_error {s : String} (h : ParseCIDR s = none)
    (fuel : Nat) :
    ∃ o, extractIPsFromCIDR fuel s = some o ∧ o.stdout = [] ∧
      o.stderr = ["Error: invalid CIDR address: " ++ s] ∧ o.stderr.length = 1 ∧
      o.returned = true := by
  refine ⟨Outcome.parseError (parseErrorText s), extract_parse_error h fuel, rfl, rfl, rfl, rfl⟩

/-- C5, witness: `10.0.0.0/33` and `not-a-cidr` are rejected and come out as one
reported error each. -/
theorem c5_rejected_string_reports_one_error_witness :
    (ParseCIDR "10.0.0.0/33" = none ∧
      ∃ o, extractIPsFromCIDR 0 "10.0.0.0/33" = some o ∧ o.stdout = [] ∧
        o.stderr = ["Error: invalid CIDR address: " ++ "10.0.0.0/33"] ∧ o.stderr.length = 1 ∧
        o.returned = true) ∧
    (ParseCIDR "not-a-cidr" = none ∧
      ∃ o, extractIPsFromCIDR 0 "not-a-cidr" = some o ∧ o.stdout = [] ∧
        o.stderr = ["Error: invalid CIDR address: " ++ "not-a-cidr"] ∧ o.stderr.length = 1 ∧
        o.returned = true) :=
  ⟨⟨by decide, c5_rejected_string_reports_one_error (s := "10.0.0.0/33") (by decide) 0⟩,
    ⟨by decide, c5_rejected_string_reports_one_error (s := "not-a-cidr") (by decide) 0⟩⟩

/-- C6 (code defect): the claim says a call either reports a parse error or
completes normally, and that the indexing in `ip4ToUint32` is always in range;
but `::ffff:1.2.3.4/120` is accepted by `ParseCIDR`, `To4` of its 16-byte mask
is `nil`, `ip4ToUint32` of it is out of range, and the call panics, whatever
the fuel. -/
theorem c6_mapped_cidr_panics :
    ParseCIDR "::ffff:1.2.3.4/120" =
        some ([0, 0, 0, 0, 0, 0, 0, 0, 0, 0, 255, 255, 1, 2, 3, 4],
          { IP := [0, 0, 0, 0, 0, 0, 0, 0, 0, 0, 255, 255, 1, 2, 3, 0],
            Mask := CIDRMask 120 128 }) ∧
      To4 [0, 0, 0, 0, 0, 0, 0, 0, 0, 0, 255, 255, 1, 2, 3, 4] ≠ [] ∧
      To4 (CIDRMask 120 128) = [] ∧
      ip4ToUint32 (To4 (CIDRMask 120 128)) = none ∧
      (∀ fuel, extractIPsFromCIDR fuel "::ffff:1.2.3.4/120" = some Outcome.panic) ∧
      (∀ fuel, (extractIPsFromCIDR fuel "::ffff:1.2.3.4/120").map Outcome.returned =
        some false) := by
  have h : ParseCIDR "::ffff:1.2.3.4/120" =
      some ([0, 0, 0, 0, 0, 0, 0, 0, 0, 0, 255, 255, 1, 2, 3, 4],
        { IP := [0, 0, 0, 0, 0, 0, 0, 0, 0, 0, 255, 255, 1, 2, 3, 0],
          Mask := CIDRMask 120 128 }) := by decide
  have hp : ∀ fuel, extractIPsFromCIDR fuel "::ffff:1.2.3.4/120" = some Outcome.panic :=
    fun fuel => extract_ipv6_mapped h (p := 120) (by decide) (by decide) fuel
  refine ⟨h, by decide, by decide, by decide, hp, ?_⟩
  intro fuel
  rw [hp fuel]
  rfl

/-- C7 (code defect): the claim says `total = broadcast - start + 1` is the true
block size `2^(32-p)` for every `p` in `0..32`; for `p = 0` (`0.0.0.0/0`, where
`start = 0` and `mask = 0`) the program gets `broadcast = 2^32 - 1` but
`total = 0`, not `2^32`: the sum wraps modulo `2^32`. -/
theorem c7_total_wraps_at_prefix_zero :
    ip4ToUint32 (To4 [0, 0, 0, 0]) = some 0 ∧
      ip4ToUint32 (To4 (CIDRMask 0 32)) = some 0 ∧
      broadcastOf 0 0 = 0 + 2 ^ (32 - 0) - 1 ∧
      totalOf (broadcastOf 0 0) 0 = 0 ∧
      totalOf (broadcastOf 0 0) 0 ≠ 2 ^ (32 - 0) := by
  decide

/-- What a normal completion can have printed: nothing, the IPv4 hosts of a
block with `1 ≤ p ≤ 30`, or the IPv6 hosts of a block with `p ≤ 127` whose
written address is not IPv4-mapped. -/
theorem printed_cases {s : String} {ip : IP} {ipNet : IPNet} {fuel : Nat} {printed : List IP}
    (h : ParseCIDR s = some (ip, ipNet))
    (hrun : extractIPsFromCIDR fuel s = some (Outcome.done printed)) :
    printed = [] ∨
    (∃ p, 1 ≤ p ∧ p ≤ 30 ∧ IPMaskSize ipNet.Mask = (p, 32) ∧
      printed = (List.range' (beBytesToNat ipNet.IP + 1) (2 ^ (32 - p) - 2)).map uint32ToIP) ∨
    (∃ p, p ≤ 127 ∧ IPMaskSize ipNet.Mask = (p, 128) ∧ To4 ip = [] ∧
      printed = (List.range' 1 (2 ^ (128 - p) - 1)).map
        (fun j => bigIntToIP (ipToBigInt ipNet.IP + j) false)) := by
  rcases ParseCIDR_family h with ⟨p, hp, hsz⟩ | ⟨p, hp, hsz⟩
  · rw [extract_ipv4 h hsz fuel] at hrun
    by_cases hr : 1 ≤ p ∧ p ≤ 30
    · rw [if_pos hr] at hrun
      by_cases hf : 2 ^ (32 - p) - 2 < fuel
      · rw [if_pos hf] at hrun
        right; left
        refine ⟨p, hr.1, hr.2, hsz, ?_⟩
        exact (Outcome.done.inj (Option.some.inj hrun)).symm
      · rw [if_neg hf] at hrun
        exact Option.noConfusion hrun
    · rw [if_neg hr] at hrun
      left
      exact (Outcome.done.inj (Option.some.inj hrun)).symm
  · by_cases h4 : To4 ip = []
    · rw [extract_ipv6 h hsz h4 fuel] at hrun
      by_cases hr : p ≤ 127
      · rw [if_pos hr] at hrun
        by_cases hf : 2 ^ (128 - p) - 1 < fuel
        · rw [if_pos hf] at hrun
          right; right
          refine ⟨p, hr, hsz, h4, ?_⟩
          exact (Outcome.done.inj (Option.some.inj hrun)).symm
        · rw [if_neg hf] at hrun
          exact Option.noConfusion hrun
      · rw [if_neg hr] at hrun
        left
        exact (Outcome.done.inj (Option.some.inj hrun)).symm
    · rw [extract_ipv6_mapped h hsz h4 fuel] at hrun
      exact Outcome.noConfusion (Option.some.inj hrun)

/-- Every address of an IPv4 block, masked with the block's mask, is the network
address: as bytes (Go `IP.Mask`) and as the `uint32` values of `ip4ToUint32`. -/
theorem ipv4_member_masks_to_network {s : String} {ip : IP} {ipNet : IPNet} {p i : Nat}
    (h : ParseCIDR s = some (ip, ipNet)) (hsz : IPMaskSize ipNet.Mask = (p, 32))
    (h1 : beBytesToNat ipNet.IP ≤ i) (h2 : i < beBytesToNat ipNet.IP + 2 ^ (32 - p)) :
    IPMaskApply (uint32ToIP i) ipNet.Mask = ipNet.IP ∧
    ∃ v m n, ip4ToUint32 (uint32ToIP i) = some v ∧ ip4ToUint32 ipNet.Mask = some m ∧
      ip4ToUint32 ipNet.IP = some n ∧ v &&& m = n := by
  obtain ⟨hp, _, hmask, hlen, hbytes, hal, hle⟩ := ipv4_parse_facts h hsz
  obtain ⟨mlen, mval, mbytes, _⟩ := cidrMask32_facts p hp
  have hi : i < 2 ^ 32 := by omega
  have hdb : ∀ x ∈ [i / 2 ^ 24 % 256, i / 2 ^ 16 % 256, i / 2 ^ 8 % 256, i % 256], x < 256 := by
    intro x hx
    simp only [List.mem_cons, List.mem_singleton, List.mem_nil_iff, or_false] at hx
    omega
  have hdv : beBytesToNat [i / 2 ^ 24 % 256, i / 2 ^ 16 % 256, i / 2 ^ 8 % 256, i % 256] = i := by
    rw [beBytesToNat_four]; omega
  have hand : i &&& (2 ^ 32 - 2 ^ (32 - p)) = beBytesToNat ipNet.IP := by
    rw [and_high_mask hi (by omega)]
    exact div_mul_of_aligned (Nat.two_pow_pos _) hal h1 h2
  constructor
  · rw [hmask, uint32ToIP_eq, IPMaskApply_mapped (by simp) mlen]
    apply beBytesToNat_inj
    · simp [mlen, hlen]
    · exact zipWith_and_bytes hdb
    · exact hbytes
    · rw [beBytesToNat_zipWith_and _ _ (by simp [mlen]) hdb mbytes, hdv, mval]
      exact hand
  · refine ⟨i, 2 ^ 32 - 2 ^ (32 - p), beBytesToNat ipNet.IP, ip4ToUint32_uint32ToIP hi, ?_,
      ip4ToUint32_of_length_four _ hlen hbytes, hand⟩
    rw [hmask, ip4ToUint32_of_length_four _ mlen mbytes, mval]

/-- Every address of an IPv6 block, masked with the block's mask, is the network
address: as bytes (Go `IP.Mask`) and as the integers of `ipToBigInt`. -/
theorem ipv6_member_masks_to_network {s : String} {ip : IP} {ipNet : IPNet} {p j : Nat}
    (h : ParseCIDR s = some (ip, ipNet)) (hsz : IPMaskSize ipNet.Mask = (p, 128))
    (hj : j < 2 ^ (128 - p)) :
    IPMaskApply (bigIntToIP (ipToBigInt ipNet.IP + j) false) ipNet.Mask = ipNet.IP ∧
    ipToBigInt (bigIntToIP (ipToBigInt ipNet.IP + j) false) &&& beBytesToNat ipNet.Mask =
      ipToBigInt ipNet.IP := by
  obtain ⟨hp, _, hmask, hlen, hbytes, hal, hle, _⟩ := ipv6_parse_facts h hsz
  obtain ⟨mlen, mval, mbytes, _, _⟩ := cidrMask128_facts p hp
  have hv : ipToBigInt ipNet.IP + j < 2 ^ 128 := by omega
  obtain ⟨elen, eval, ebytes⟩ := bigIntToIP_facts hv
  have hnet : beBytesToNat ipNet.IP = ipToBigInt ipNet.IP := by
    rw [ipToBigInt, To16_of_length_sixteen hlen]
  have hand : (ipToBigInt ipNet.IP + j) &&& (2 ^ 128 - 2 ^ (128 - p)) = ipToBigInt ipNet.IP := by
    rw [and_high_mask hv (by omega)]
    exact div_mul_of_aligned (Nat.two_pow_pos _) hal (by omega) (by omega)
  constructor
  · rw [hmask, IPMaskApply_sixteen elen mlen]
    apply beBytesToNat_inj
    · simp [mlen, hlen, elen]
    · exact zipWith_and_bytes ebytes
    · exact hbytes
    · rw [beBytesToNat_zipWith_and _ _ (by simp [mlen, elen]) ebytes mbytes, eval, mval, hnet]
      exact hand
  · rw [ipToBigInt_bigIntToIP hv, hmask, mval]
    exact hand

/-- C8: for every accepted CIDR of either family and every fuel, each address
printed by a call of `extractIPsFromCIDR` that completes, masked again with
the network's mask, is the network address: as bytes (Go `IP.Mask`, the
bytewise AND), as `uint32` values for an IPv4 block, and as 128-bit integers
for an IPv6 block. -/
theorem c8_printed_address_in_block {s : String} {ip : IP} {ipNet : IPNet} {fuel : Nat}
    {printed : List IP} (h : ParseCIDR s = some (ip, ipNet))
    (hrun : extractIPsFromCIDR fuel s = some (Outcome.done printed)) :
    ∀ e ∈ printed, IPMaskApply e ipNet.Mask = ipNet.IP ∧
      ((IPMaskSize ipNet.Mask).2 = 32 →
        ∃ v m n, ip4ToUint32 e = some v ∧ ip4ToUint32 ipNet.Mask = some m ∧
          ip4ToUint32 ipNet.IP = some n ∧ v &&& m = n) ∧
      ((IPMaskSize ipNet.Mask).2 = 128 →
        ipToBigInt e &&& beBytesToNat ipNet.Mask = ipToBigInt ipNet.IP) := by
  intro e he
  rcases printed_cases h hrun with hnil | ⟨p, hp1, hp30, hsz, hpr⟩ | ⟨p, hp, hsz, h4, hpr⟩
  · rw [hnil] at he
    simp at he
  · rw [hpr, List.mem_map] at he
    obtain ⟨i, hi, rfl⟩ := he
    rw [List.mem_range'_1] at hi
    have hpos : 0 < 2 ^ (32 - p) := Nat.two_pow_pos _
    obtain ⟨hb, hv⟩ := ipv4_member_masks_to_network h hsz (i := i) (by omega) (by omega)
    refine ⟨hb, fun _ => hv, fun h128 => ?_⟩
    rw [hsz] at h128
    simp at h128
  · rw [hpr, List.mem_map] at he
    obtain ⟨j, hj, rfl⟩ := he
    rw [List.mem_range'_1] at hj
    obtain ⟨hb, hv⟩ := ipv6_member_masks_to_network h hsz (j := j) (by omega)
    refine ⟨hb, fun h32 => ?_, fun _ => hv⟩
    rw [hsz] at h32
    simp at h32

/-- C8, witness: the two hosts printed for `192.168.0.5/30` mask back to
`192.168.0.4`. -/
theorem c8_printed_address_in_block_witness :
    ParseCIDR "192.168.0.5/30" =
        some ([0, 0, 0, 0, 0, 0, 0, 0, 0, 0, 255, 255, 192, 168, 0, 5],
          { IP := [192, 168, 0, 4], Mask := [255, 255, 255, 252] }) ∧
      extractIPsFromCIDR 3 "192.168.0.5/30" =
        some (Outcome.done [[0, 0, 0, 0, 0, 0, 0, 0, 0, 0, 255, 255, 192, 168, 0, 5],
          [0, 0, 0, 0, 0, 0, 0, 0, 0, 0, 255, 255, 192, 168, 0, 6]]) ∧
      ∀ e ∈ [[0, 0, 0, 0, 0, 0, 0, 0, 0, 0, 255, 255, 192, 168, 0, 5],
          [0, 0, 0, 0, 0, 0, 0, 0, 0, 0, 255, 255, 192, 168, 0, 6]],
        IPMaskApply e [255, 255, 255, 252] = [192, 168, 0, 4] ∧
        ((IPMaskSize [255, 255, 255, 252]).2 = 32 →
          ∃ v m n, ip4ToUint32 e = some v ∧ ip4ToUint32 [255, 255, 255, 252] = some m ∧
            ip4ToUint32 [192, 168, 0, 4] = some n ∧ v &&& m = n) ∧
        ((IPMaskSize [255, 255, 255, 252]).2 = 128 →
          ipToBigInt e &&& beBytesToNat [255, 255, 255, 252] = ipToBigInt [192, 168, 0, 4]) :=
  ⟨by decide, by decide,
    @c8_printed_address_in_block "192.168.0.5/30"
      [0, 0, 0, 0, 0, 0, 0, 0, 0, 0, 255, 255, 192, 168, 0, 5]
      { IP := [192, 168, 0, 4], Mask := [255, 255, 255, 252] } 3 _
      (by decide) (by decide)⟩

/-- C9: for every accepted CIDR of either family and every fuel, the
addresses printed by a call of `extractIPsFromCIDR` that completes form a run
of consecutive integers (each is the one before plus 1, read as a 128-bit
integer by `ipToBigInt`, and for an IPv4 block also as a `uint32` by
`ip4ToUint32`), so no address is printed twice. -/
theorem c9_printed_strictly_ascending {s : String} {ip : IP} {ipNet : IPNet} {fuel : Nat}
    {printed : List IP} (h : ParseCIDR s = some (ip, ipNet))
    (hrun : extractIPsFromCIDR fuel s = some (Outcome.done printed)) :
    List.Chain' (fun a b => ipToBigInt b = ipToBigInt a + 1) printed ∧ printed.Nodup ∧
    ((IPMaskSize ipNet.Mask).2 = 32 →
      List.Chain' (fun a b => ∃ x, ip4ToUint32 a = some x ∧ ip4ToUint32 b = some (x + 1))
        printed) := by
  rcases printed_cases h hrun with hnil | ⟨p, hp1, hp30, hsz, hpr⟩ | ⟨p, hp, hsz, h4, hpr⟩
  · rw [hnil]
    simp
  · obtain ⟨_, _, _, _, _, _, hle⟩ := ipv4_parse_facts h hsz
    have hpos : 0 < 2 ^ (32 - p) := Nat.two_pow_pos _
    rw [hpr]
    refine ⟨?_, ?_, fun _ => ?_⟩
    · apply chain'_map_range'
      intro i h1 h2
      rw [ipToBigInt_uint32ToIP (by omega), ipToBigInt_uint32ToIP (by omega)]
      omega
    · apply List.Nodup.map_on _ (List.nodup_range' _ _)
      intro x hx y hy hxy
      rw [List.mem_range'_1] at hx hy
      have := congrArg ipToBigInt hxy
      rw [ipToBigInt_uint32ToIP (by omega), ipToBigInt_uint32ToIP (by omega)] at this
      omega
    · apply chain'_map_range'
      intro i h1 h2
      exact ⟨i, ip4ToUint32_uint32ToIP (by omega), ip4ToUint32_uint32ToIP (by omega)⟩
  · obtain ⟨_, _, _, _, _, _, hle, _⟩ := ipv6_parse_facts h hsz
    have hpos : 0 < 2 ^ (128 - p) := Nat.two_pow_pos _
    rw [hpr]
    refine ⟨?_, ?_, fun h32 => ?_⟩
    · apply chain'_map_range'
      intro i h1 h2
      rw [ipToBigInt_bigIntToIP (by omega), ipToBigInt_bigIntToIP (by omega)]
      omega
    · apply List.Nodup.map_on _ (List.nodup_range' _ _)
      intro x hx y hy hxy
      rw [List.mem_range'_1] at hx hy
      have := congrArg ipToBigInt hxy
      rw [ipToBigInt_bigIntToIP (by omega), ipToBigInt_bigIntToIP (by omega)] at this
      omega
    · rw [hsz] at h32
      simp at h32

/-- C9, witness: the three hosts printed for `2001:db8::/126` are consecutive. -/
theorem c9_printed_strictly_ascending_witness :
    ParseCIDR "2001:db8::/126" =
        some ([32, 1, 13, 184, 0, 0, 0, 0, 0, 0, 0, 0, 0, 0, 0, 0],
          { IP := [32, 1, 13, 184, 0, 0, 0, 0, 0, 0, 0, 0, 0, 0, 0, 0],
            Mask := CIDRMask 126 128 }) ∧
      extractIPsFromCIDR 4 "2001:db8::/126" =
        some (Outcome.done [[32, 1, 13, 184, 0, 0, 0, 0, 0, 0, 0, 0, 0, 0, 0, 1],
          [32, 1, 13, 184, 0, 0, 0, 0, 0, 0, 0, 0, 0, 0, 0, 2],
          [32, 1, 13, 184, 0, 0, 0, 0, 0, 0, 0, 0, 0, 0, 0, 3]]) ∧
      (List.Chain' (fun a b => ipToBigInt b = ipToBigInt a + 1)
          [[32, 1, 13, 184, 0, 0, 0, 0, 0, 0, 0, 0, 0, 0, 0, 1],
            [32, 1, 13, 184, 0, 0, 0, 0, 0, 0, 0, 0, 0, 0, 0, 2],
            [32, 1, 13, 184, 0, 0, 0, 0, 0, 0, 0, 0, 0, 0, 0, 3]] ∧
        [[32, 1, 13, 184, 0, 0, 0, 0, 0, 0, 0, 0, 0, 0, 0, 1],
            [32, 1, 13, 184, 0, 0, 0, 0, 0, 0, 0, 0, 0, 0, 0, 2],
            [32, 1, 13, 184, 0, 0, 0, 0, 0, 0, 0, 0, 0, 0, 0, 3]].Nodup ∧
        ((IPMaskSize (CIDRMask 126 128)).2 = 32 →
          List.Chain' (fun a b => ∃ x, ip4ToUint32 a = some x ∧ ip4ToUint32 b = some (x + 1))
            [[32, 1, 13, 184, 0, 0, 0, 0, 0, 0, 0, 0, 0, 0, 0, 1],
              [32, 1, 13, 184, 0, 0, 0, 0, 0, 0, 0, 0, 0, 0, 0, 2],
              [32, 1, 13, 184, 0, 0, 0, 0, 0, 0, 0, 0, 0, 0, 0, 3]])) :=
  ⟨by decide, by decide,
    @c9_printed_strictly_ascending "2001:db8::/126"
      [32, 1, 13, 184, 0, 0, 0, 0, 0, 0, 0, 0, 0, 0, 0, 0]
      { IP := [32, 1, 13, 184, 0, 0, 0, 0, 0, 0, 0, 0, 0, 0, 0, 0], Mask := CIDRMask 126 128 } 4 _
      (by decide) (by decide)⟩

/-- C10 (code defect): the claim says every line of an IPv6 block is compressed
IPv6 text, never dotted decimal; but for the accepted IPv6 CIDR `::fffe:0:0/95`
(not IPv4-mapped, so the IPv6 loop runs) the line printed for
`network + (2^32 + 1)`, the value `::ffff:0:1`, is the dotted-decimal text
`0.0.0.1`, because `IP.String` renders IPv4-mapped addresses as IPv4. -/
theorem c10_mapped_value_printed_dotted :
    ∃ printed, extractIPsFromCIDR (2 ^ 33) "::fffe:0:0/95" = some (Outcome.done printed) ∧
      printed.length = 2 ^ 33 - 1 ∧
      printed[2 ^ 32]? = some (bigIntToIP (0xfffe00000000 + (2 ^ 32 + 1)) false) ∧
      (Outcome.done printed).stdout[2 ^ 32]? = some "0.0.0.1" ∧
      String.mk (string6 (0xfffe00000000 + (2 ^ 32 + 1))) = "::ffff:0:1" := by
  have h : ParseCIDR "::fffe:0:0/95" =
      some ([0, 0, 0, 0, 0, 0, 0, 0, 0, 0, 255, 254, 0, 0, 0, 0],
        { IP := [0, 0, 0, 0, 0, 0, 0, 0, 0, 0, 255, 254, 0, 0, 0, 0],
          Mask := CIDRMask 95 128 }) := by decide
  have he := extract_ipv6 h (p := 95) (by decide) (by decide) (2 ^ 33)
  have hnet : ipToBigInt [0, 0, 0, 0, 0, 0, 0, 0, 0, 0, 255, 254, 0, 0, 0, 0] = 0xfffe00000000 := by
    decide
  rw [if_pos (by omega), if_pos (by norm_num)] at he
  dsimp only at he
  rw [hnet] at he
  refine ⟨_, he, ?_, ?_, ?_, by decide⟩
  · simp
  · rw [List.getElem?_map, List.getElem?_range' 1 1 (by norm_num)]
    simp only [Option.map_some', Nat.one_mul]
    rw [Nat.add_comm 1 (2 ^ 32)]
  · simp only [Outcome.stdout]
    rw [List.getElem?_map, List.getElem?_map, List.getElem?_range' 1 1 (by norm_num)]
    simp only [Option.map_some', Nat.one_mul]
    have : IPString (bigIntToIP (0xfffe00000000 + (1 + 2 ^ 32)) false) = "0.0.0.1" := by decide
    rw [this]

/-! ## Further facts: rendering of IPv6 hosts and termination -/

/-- A list of length sixteen, element by element. -/
theorem length_sixteen_cases (l : List Nat) (h : l.length = 16) :
    ∃ a0 a1 a2 a3 a4 a5 a6 a7 a8 a9 a10 a11 a12 a13 a14 a15,
      l = [a0, a1, a2, a3, a4, a5, a6, a7, a8, a9, a10, a11, a12, a13, a14, a15] := by
  rcases l with _ | ⟨a0, l⟩
  · simp at h
  rcases l with _ | ⟨a1, l⟩
  · simp at h
  rcases l with _ | ⟨a2, l⟩
  · simp at h
  rcases l with _ | ⟨a3, l⟩
  · simp at h
  rcases l with _ | ⟨a4, l⟩
  · simp at h
  rcases l with _ | ⟨a5, l⟩
  · simp at h
  rcases l with _ | ⟨a6, l⟩
  · simp at h
  rcases l with _ | ⟨a7, l⟩
  · simp at h
  rcases l with _ | ⟨a8, l⟩
  · simp at h
  rcases l with _ | ⟨a9, l⟩
  · simp at h
  rcases l with _ | ⟨a10, l⟩
  · simp at h
  rcases l with _ | ⟨a11, l⟩
  · simp at h
  rcases l with _ | ⟨a12, l⟩
  · simp at h
  rcases l with _ | ⟨a13, l⟩
  · simp at h
  rcases l with _ | ⟨a14, l⟩
  · simp at h
  rcases l with _ | ⟨a15, l⟩
  · simp at h
  rcases l with _ | ⟨x, l⟩
  · exact ⟨a0, a1, a2, a3, a4, a5, a6, a7, a8, a9, a10, a11, a12, a13, a14, a15, rfl⟩
  · simp at h

/-- A 16-byte address for which `To4` succeeds has the value `0xffff` above its
low 32 bits: it is IPv4-mapped. -/
theorem To4_sixteen_value {l : List Nat} (hl : l.length = 16) (hb : ∀ x ∈ l, x < 256)
    (h4 : To4 l ≠ []) : beBytesToNat l / 2 ^ 32 = 0xffff := by
  obtain ⟨a0, a1, a2, a3, a4, a5, a6, a7, a8, a9, a10, a11, a12, a13, a14, a15, rfl⟩ :=
    length_sixteen_cases l hl
  have h12 := hb a12 (by simp)
  have h13 := hb a13 (by simp)
  have h14 := hb a14 (by simp)
  have h15 := hb a15 (by simp)
  by_cases hc : a0 = 0 ∧ a1 = 0 ∧ a2 = 0 ∧ a3 = 0 ∧ a4 = 0 ∧ a5 = 0 ∧ a6 = 0 ∧ a7 = 0 ∧ a8 = 0 ∧
      a9 = 0 ∧ a10 = 255 ∧ a11 = 255
  · obtain ⟨rfl, rfl, rfl, rfl, rfl, rfl, rfl, rfl, rfl, rfl, rfl, rfl⟩ := hc
    simp only [beBytesToNat, List.foldl_cons, List.foldl_nil]
    omega
  · exfalso
    apply h4
    simp only [To4, IPv4len, IPv6len, isZeros, List.length_cons, List.length_nil]
    simp
    intro e0 e1 e2 e3 e4 e5 e6 e7 e8 e9 e10 e11
    exact absurd ⟨e0, e1, e2, e3, e4, e5, e6, e7, e8, e9, e10, e11⟩ hc

/-- The line printed for an IPv6 host whose value is not IPv4-mapped is the
compressed lower-case IPv6 text of the value. -/
theorem IPString_bigIntToIP_not_mapped {v : Nat} (hv : v < 2 ^ 128) (hn : v / 2 ^ 32 ≠ 0xffff) :
    IPString (bigIntToIP v false) = String.mk (string6 v) := by
  obtain ⟨hl, hval, hb⟩ := bigIntToIP_facts hv
  have h4 : To4 (bigIntToIP v false) = [] := by
    by_contra hc
    have := To4_sixteen_value hl hb hc
    rw [hval] at this
    exact hn this
  have ha : (AddrFrom16 (bigIntToIP v false)).addr = v := by
    simp only [AddrFrom16, hval]
    exact Nat.mod_eq_of_lt hv
  simp [IPString, hl, h4, ha, IPv4len, IPv6len]

/-- Every call of `extractIPsFromCIDR` comes to an end: `2^128` loop rounds are
enough for every input string. -/
theorem extract_terminates (s : String) (fuel : Nat) (hf : 2 ^ 128 ≤ fuel) :
    ∃ o, extractIPsFromCIDR fuel s = some o := by
  cases hP : ParseCIDR s with
  | none => exact ⟨_, extract_parse_error hP fuel⟩
  | some r =>
    obtain ⟨ip, ipNet⟩ := r
    rcases ParseCIDR_family hP with ⟨p, hp, hsz⟩ | ⟨p, hp, hsz⟩
    · rw [extract_ipv4 hP hsz fuel]
      have h1 : 2 ^ (32 - p) ≤ 2 ^ 128 := Nat.pow_le_pow_right (by decide) (by omega)
      by_cases hr : 1 ≤ p ∧ p ≤ 30
      · rw [if_pos hr, if_pos (by omega)]
        exact ⟨_, rfl⟩
      · rw [if_neg hr]
        exact ⟨_, rfl⟩
    · by_cases h4 : To4 ip = []
      · rw [extract_ipv6 hP hsz h4 fuel]
        have h1 : 2 ^ (128 - p) ≤ 2 ^ 128 := Nat.pow_le_pow_right (by decide) (by omega)
        have hpos : 0 < 2 ^ (128 - p) := Nat.two_pow_pos _
        by_cases hr : p ≤ 127
        · rw [if_pos hr, if_pos (by omega)]
          exact ⟨_, rfl⟩
        · rw [if_neg hr]
          exact ⟨_, rfl⟩
      · exact ⟨_, extract_ipv6_mapped hP hsz h4 fuel⟩

/-! ## The batch loop of `main` -/

/-- When every call of a batch returns (parse errors included), the loop prints
the outputs of the single calls one after the other, in input order. -/
theorem processLoop_of_returned (fuel : Nat) : ∀ (l : List String),
    (∀ c ∈ l, ∃ o, extractIPsFromCIDR fuel c = some o ∧ o.returned = true) →
    ∃ r, processLoop fuel l = some r ∧ r.stdout = l.flatMap (linesOf fuel) ∧ r.crashed = false
  | [], _ => ⟨_, rfl, rfl, rfl⟩
  | c :: rest, h => by
    obtain ⟨o, ho, hret⟩ := h c (List.mem_cons_self _ _)
    obtain ⟨r, hr, hout, hcr⟩ :=
      processLoop_of_returned fuel rest (fun x hx => h x (List.mem_cons_of_mem _ hx))
    have hl : linesOf fuel c = o.stdout := by simp [linesOf, ho]
    cases o with
    | panic => simp [Outcome.returned] at hret
    | parseError msg =>
      refine ⟨{ stdout := (Outcome.parseError msg).stdout ++ r.stdout,
                stderr := (Outcome.parseError msg).stderr ++ r.stderr,
                crashed := r.crashed }, ?_, ?_, hcr⟩
      · simp only [processLoop, ho, hr, Option.map_some']
      · simp only [List.flatMap_cons, hl, hout]
    | done printed =>
      refine ⟨{ stdout := (Outcome.done printed).stdout ++ r.stdout,
                stderr := (Outcome.done printed).stderr ++ r.stderr,
                crashed := r.crashed }, ?_, ?_, hcr⟩
      · simp only [processLoop, ho, hr, Option.map_some']
      · simp only [List.flatMap_cons, hl, hout]

/-- The outcome of a call depends only on the parsed network and on whether
`To4` of the written address is `nil`. -/
theorem extract_congr {s1 s2 : String} {ip1 ip2 : IP} {ipNet : IPNet}
    (h1 : ParseCIDR s1 = some (ip1, ipNet)) (h2 : ParseCIDR s2 = some (ip2, ipNet))
    (h4 : To4 ip1 = [] ↔ To4 ip2 = []) (fuel : Nat) :
    extractIPsFromCIDR fuel s1 = extractIPsFromCIDR fuel s2 := by
  by_cases hc : To4 ip1 = []
  · have hc2 : To4 ip2 = [] := h4.mp hc
    rw [extract_v6_branch h1 hc fuel, extract_v6_branch h2 hc2 fuel]
  · have hc2 : To4 ip2 ≠ [] := fun h => hc (h4.mpr h)
    simp only [extractIPsFromCIDR, h1, h2]
    rw [if_pos hc, if_pos hc2]

/-- Two accepted IPv4 CIDRs with the same network and mask behave alike. -/
theorem extract_ipv4_congr {s1 s2 : String} {ip1 ip2 : IP} {ipNet : IPNet} {p : Nat}
    (h1 : ParseCIDR s1 = some (ip1, ipNet)) (h2 : ParseCIDR s2 = some (ip2, ipNet))
    (hsz : IPMaskSize ipNet.Mask = (p, 32)) (fuel : Nat) :
    extractIPsFromCIDR fuel s1 = extractIPsFromCIDR fuel s2 := by
  have a1 := (ipv4_parse_facts h1 hsz).2.1
  have a2 := (ipv4_parse_facts h2 hsz).2.1
  exact extract_congr h1 h2 ⟨fun h => absurd h a1, fun h => absurd h a2⟩ fuel

/-- C11 (code defect): the claim says the batch loop prints, for every list, the
outputs of the single calls one after the other; but for the list
`::ffff:1.2.3.4/120`, `192.168.0.0/30` the first call panics, the process ends
and the two hosts of the second entry are never printed. A rejected entry does
not have this effect: `192.168.0.0/30`, `not-a-cidr`, `192.168.0.0/30` prints the
two hosts twice and one error. -/
theorem c11_panic_aborts_batch :
    (∀ fuel, processLoop fuel ["::ffff:1.2.3.4/120", "192.168.0.0/30"] =
      some { stdout := [], stderr := [], crashed := true }) ∧
    ["::ffff:1.2.3.4/120", "192.168.0.0/30"].flatMap (linesOf 3) =
      ["192.168.0.1", "192.168.0.2"] ∧
    processLoop 3 ["192.168.0.0/30", "not-a-cidr", "192.168.0.0/30"] =
      some { stdout := ["192.168.0.1", "192.168.0.2", "192.168.0.1", "192.168.0.2"],
             stderr := ["Error: invalid CIDR address: not-a-cidr"], crashed := false } := by
  refine ⟨?_, by decide, by decide⟩
  intro fuel
  have h : ParseCIDR "::ffff:1.2.3.4/120" =
      some ([0, 0, 0, 0, 0, 0, 0, 0, 0, 0, 255, 255, 1, 2, 3, 4],
        { IP := [0, 0, 0, 0, 0, 0, 0, 0, 0, 0, 255, 255, 1, 2, 3, 0],
          Mask := CIDRMask 120 128 }) := by decide
  have hp := extract_ipv6_mapped h (p := 120) (by decide) (by decide) fuel
  simp only [processLoop, hp]

/-- C12 (code defect): the claim says the outcome depends only on the network
and the prefix length; but `::ffff:0:0/95` and `::fffe:0:0/95` are both accepted
with the same network `::fffe:0:0` and the same mask, and the first call panics
(its written address is IPv4-mapped) while the second prints `2^33 - 1` hosts. -/
theorem c12_same_network_different_outcome :
    ParseCIDR "::ffff:0:0/95" =
        some ([0, 0, 0, 0, 0, 0, 0, 0, 0, 0, 255, 255, 0, 0, 0, 0],
          { IP := [0, 0, 0, 0, 0, 0, 0, 0, 0, 0, 255, 254, 0, 0, 0, 0],
            Mask := CIDRMask 95 128 }) ∧
      ParseCIDR "::fffe:0:0/95" =
        some ([0, 0, 0, 0, 0, 0, 0, 0, 0, 0, 255, 254, 0, 0, 0, 0],
          { IP := [0, 0, 0, 0, 0, 0, 0, 0, 0, 0, 255, 254, 0, 0, 0, 0],
            Mask := CIDRMask 95 128 }) ∧
      (∀ fuel, extractIPsFromCIDR fuel "::ffff:0:0/95" = some Outcome.panic) ∧
      (∃ printed, extractIPsFromCIDR (2 ^ 33) "::fffe:0:0/95" = some (Outcome.done printed) ∧
        printed.length = 2 ^ 33 - 1) ∧
      extractIPsFromCIDR (2 ^ 33) "::ffff:0:0/95" ≠ extractIPsFromCIDR (2 ^ 33) "::fffe:0:0/95" := by
  have h1 : ParseCIDR "::ffff:0:0/95" =
      some ([0, 0, 0, 0, 0, 0, 0, 0, 0, 0, 255, 255, 0, 0, 0, 0],
        { IP := [0, 0, 0, 0, 0, 0, 0, 0, 0, 0, 255, 254, 0, 0, 0, 0],
          Mask := CIDRMask 95 128 }) := by decide
  have h2 : ParseCIDR "::fffe:0:0/95" =
      some ([0, 0, 0, 0, 0, 0, 0, 0, 0, 0, 255, 254, 0, 0, 0, 0],
        { IP := [0, 0, 0, 0, 0, 0, 0, 0, 0, 0, 255, 254, 0, 0, 0, 0],
          Mask := CIDRMask 95 128 }) := by decide
  have hp : ∀ fuel, extractIPsFromCIDR fuel "::ffff:0:0/95" = some Outcome.panic :=
    fun fuel => extract_ipv6_mapped h1 (p := 95) (by decide) (by decide) fuel
  have he := extract_ipv6 h2 (p := 95) (by decide) (by decide) (2 ^ 33)
  rw [if_pos (by omega), if_pos (by norm_num)] at he
  refine ⟨h1, h2, hp, ⟨_, he, by simp⟩, ?_⟩
  rw [hp, he]
  simp

/-! ## Input-source selection and line reading -/

/-- C13, counterexample: with `-t 10.0.0.0/30`, no `-l`, and standard input
piped (not a character device) carrying the line `192.168.0.0/30`, `main` reads
standard input and processes that line, not the target. -/
theorem c13_piped_stdin_wins_over_target :
    selectCIDRs
        { openFile := fun _ => OpenResult.failed "open failed",
          stdin := { lines := ["192.168.0.0/30"], err := none },
          stdinIsCharDevice := false }
        "10.0.0.0/30" "" = Selected.list ["192.168.0.0/30"] ∧
      selectCIDRs
        { openFile := fun _ => OpenResult.failed "open failed",
          stdin := { lines := ["192.168.0.0/30"], err := none },
          stdinIsCharDevice := false }
        "10.0.0.0/30" "" ≠ Selected.list ["10.0.0.0/30"] ∧
      selectCIDRs
        { openFile := fun _ => OpenResult.failed "open failed",
          stdin := { lines := ["192.168.0.0/30"], err := none },
          stdinIsCharDevice := false }
        "10.0.0.0/30" "" =
      Selected.list (scanLoop ["192.168.0.0/30"]) := by
  decide

/-- The three branches of the input-source selection of `main`: a list file
given with `-l` is read whenever it is given; without it, standard input is read
when it is not a character device, whatever `-t` is; without a list file and
with standard input a character device, the target alone is the list, or
`main` exits when there is no target. -/
theorem selectCIDRs_cases (env : Env) (target listFile : String) :
    (listFile ≠ "" →
      selectCIDRs env target listFile =
        match readCIDRsFromStdinOrFile env listFile with
        | ReadResult.err e => Selected.exit1 ("Error reading file: " ++ e)
        | ReadResult.ok l => Selected.list l) ∧
    (listFile = "" → env.stdinIsCharDevice = false →
      selectCIDRs env target listFile =
        match readFrom env.stdin with
        | ReadResult.err e => Selected.exit1 ("Error reading stdin: " ++ e)
        | ReadResult.ok l => Selected.list l) ∧
    (listFile = "" → env.stdinIsCharDevice = true → target = "" →
      selectCIDRs env target listFile =
        Selected.exit1
          "Error: You must provide a CIDR with -t, or a list of CIDRs with -l or via stdin.") := by
  refine ⟨?_, ?_, ?_⟩
  · intro hl
    simp only [selectCIDRs, if_pos hl]
  · intro hl hc
    subst hl
    simp [selectCIDRs, hc, readCIDRsFromStdinOrFile]
  · intro hl hc ht
    subst hl
    simp [selectCIDRs, hc, ht]

/-- C13, as amended: standard input is used as the source of CIDRs only when it
is not a character device (the test `main` makes; an interactive terminal is a
character device) and no list file (`-l`) is given: in every other case the
selected list does not depend on what standard input holds. And for every
combination in which `-t` is given, `-l` is not, and standard input is a
character device, the list processed is exactly the single target string. -/
theorem c13_input_source_selection (env : Env) (target listFile : String) :
    (listFile ≠ "" ∨ env.stdinIsCharDevice = true →
      ∀ sc : Scanned, selectCIDRs { env with stdin := sc } target listFile =
        selectCIDRs env target listFile) ∧
    (target ≠ "" → listFile = "" → env.stdinIsCharDevice = true →
      selectCIDRs env target listFile = Selected.list [target]) := by
  refine ⟨?_, ?_⟩
  · intro h sc
    by_cases hl : listFile = ""
    · subst hl
      have hc : env.stdinIsCharDevice = true := by
        rcases h with h | h
        · exact absurd rfl h
        · exact h
      simp [selectCIDRs, hc]
    · simp only [selectCIDRs, if_pos hl, readCIDRsFromStdinOrFile]
  · intro ht hl hc
    subst hl
    simp [selectCIDRs, hc, ht]

/-- C13 as amended, witness: with `-t 10.0.0.0/30`, no `-l` and standard input a
character device, the list is the target alone and does not change with what
standard input holds. -/
theorem c13_input_source_selection_witness :
    (∀ sc : Scanned,
      selectCIDRs
          { openFile := fun _ => OpenResult.failed "open failed",
            stdin := sc,
            stdinIsCharDevice := true }
          "10.0.0.0/30" "" =
        selectCIDRs
          { openFile := fun _ => OpenResult.failed "open failed",
            stdin := { lines := ["192.168.0.0/30"], err := none },
            stdinIsCharDevice := true }
          "10.0.0.0/30" "") ∧
    selectCIDRs
        { openFile := fun _ => OpenResult.failed "open failed",
          stdin := { lines := ["192.168.0.0/30"], err := none },
          stdinIsCharDevice := true }
        "10.0.0.0/30" "" = Selected.list ["10.0.0.0/30"] :=
  ⟨(c13_input_source_selection
      { openFile := fun _ => OpenResult.failed "open failed",
        stdin := { lines := ["192.168.0.0/30"], err := none },
        stdinIsCharDevice := true }
      "10.0.0.0/30" "").1 (Or.inr rfl),
    (c13_input_source_selection
      { openFile := fun _ => OpenResult.failed "open failed",
        stdin := { lines := ["192.168.0.0/30"], err := none },
        stdinIsCharDevice := true }
      "10.0.0.0/30" "").2 (by decide) rfl rfl⟩

/-- The reading loop keeps the trimmed lines that are not empty, in order. -/
theorem scanLoop_eq (lines : List String) :
    scanLoop lines = (lines.map TrimSpace).filter (fun c => decide (c ≠ "")) := by
  induction lines with
  | nil => rfl
  | cons text rest ih =>
    simp only [scanLoop, List.map_cons, List.filter_cons]
    by_cases h : TrimSpace text ≠ ""
    · simp [h, ih]
    · simp [h, ih]

/-- A trimmed string that is not empty neither starts nor ends with white space. -/
theorem TrimSpace_ends (s : String) (h : TrimSpace s ≠ "") :
    (∀ ch, (TrimSpace s).data.head? = some ch → isSpace ch = false) ∧
    (∀ ch, (TrimSpace s).data.getLast? = some ch → isSpace ch = false) := by
  have hne : (s.data.dropWhile isSpace).rdropWhile isSpace ≠ [] := by
    intro hnil
    apply h
    simp [TrimSpace, hnil]
  constructor
  · intro ch hch
    simp only [TrimSpace] at hch
    obtain ⟨r, hr⟩ := List.rdropWhile_prefix isSpace (l := s.data.dropWhile isSpace)
    have hhead : (s.data.dropWhile isSpace).head? = some ch := by
      rw [← hr]
      cases ht : (s.data.dropWhile isSpace).rdropWhile isSpace with
      | nil => exact absurd ht hne
      | cons x xs =>
        rw [ht] at hch
        simpa using hch
    have := List.head?_dropWhile_not isSpace s.data
    rw [hhead] at this
    simpa using this
  · intro ch hch
    simp only [TrimSpace] at hch
    have hlast := List.rdropWhile_last_not isSpace (s.data.dropWhile isSpace) hne
    rw [List.getLast?_eq_getLast _ hne, Option.some.injEq] at hch
    rw [← hch]
    simpa using hlast

/-- C14, counterexample: the claim speaks of every sequence of input lines, but
when the scanner stops with an error (here `token too long`, a line of 64 KiB
or more after the line `10.0.0.0/30`), `readCIDRsFromStdinOrFile` returns the
error and no list: the non-blank line `10.0.0.0/30` is dropped. -/
theorem c14_scanner_error_drops_lines :
    readCIDRsFromStdinOrFile
        { openFile := fun _ => OpenResult.failed "open failed",
          stdin := { lines := ["10.0.0.0/30"], err := some "bufio.Scanner: token too long" },
          stdinIsCharDevice := false }
        "" = ReadResult.err "bufio.Scanner: token too long" ∧
      TrimSpace "10.0.0.0/30" ≠ "" ∧
      readCIDRsFromStdinOrFile
        { openFile := fun _ => OpenResult.failed "open failed",
          stdin := { lines := ["10.0.0.0/30"], err := some "bufio.Scanner: token too long" },
          stdinIsCharDevice := false }
        "" ≠
      ReadResult.ok ((["10.0.0.0/30"].map TrimSpace).filter (fun c => decide (c ≠ ""))) := by
  decide

/-- C14, as amended: for every sequence of lines that the scanner delivers
without error (`scanner.Err()` is `nil`; from the file when a path is given,
from standard input otherwise), `readCIDRsFromStdinOrFile` returns exactly the
trimmed forms of the lines that are not empty after trimming, in their order;
every returned entry is non-empty and neither starts nor ends with white
space, and every line that is non-blank after trimming is returned. -/
theorem c14_line_reading (env : Env) (filePath : String) (sc : Scanned)
    (hsrc : (filePath ≠ "" ∧ env.openFile filePath = OpenResult.opened sc) ∨
      (filePath = "" ∧ env.stdin = sc))
    (herr : sc.err = none) :
    readCIDRsFromStdinOrFile env filePath =
        ReadResult.ok ((sc.lines.map TrimSpace).filter (fun c => decide (c ≠ ""))) ∧
      (∀ c ∈ (sc.lines.map TrimSpace).filter (fun c => decide (c ≠ "")),
        c ≠ "" ∧ (∀ ch, c.data.head? = some ch → isSpace ch = false) ∧
          (∀ ch, c.data.getLast? = some ch → isSpace ch = false)) ∧
      (∀ line ∈ sc.lines, TrimSpace line ≠ "" →
        TrimSpace line ∈ (sc.lines.map TrimSpace).filter (fun c => decide (c ≠ ""))) ∧
      List.Sublist ((sc.lines.map TrimSpace).filter (fun c => decide (c ≠ "")))
        (sc.lines.map TrimSpace) := by
  refine ⟨?_, ?_, ?_, List.filter_sublist _⟩
  · have hr : readFrom sc = ReadResult.ok (scanLoop sc.lines) := by
      simp [readFrom, herr]
    rcases hsrc with ⟨hp, ho⟩ | ⟨hp, hs⟩
    · simp only [readCIDRsFromStdinOrFile, if_pos hp, ho, hr, scanLoop_eq]
    · subst hp
      simp only [readCIDRsFromStdinOrFile, hs, hr, scanLoop_eq]
      simp
  · intro c hc
    rw [List.mem_filter, List.mem_map] at hc
    obtain ⟨⟨line, _, rfl⟩, hne⟩ := hc
    have hne2 : TrimSpace line ≠ "" := by simpa using hne
    exact ⟨hne2, TrimSpace_ends line hne2⟩
  · intro line hl hne
    rw [List.mem_filter]
    exact ⟨List.mem_map_of_mem _ hl, by simpa using hne⟩

/-- C14 as amended, witness: a file with blank lines and padded lines. -/
theorem c14_line_reading_witness :
    readCIDRsFromStdinOrFile
        { openFile := fun _ =>
            OpenResult.opened
              { lines := ["  10.0.0.0/30 ", "", " \t ", "bad line", "192.168.0.0/31\r"],
                err := none },
          stdin := { lines := [], err := none },
          stdinIsCharDevice := true }
        "list.txt" =
      ReadResult.ok ((["  10.0.0.0/30 ", "", " \t ", "bad line", "192.168.0.0/31\r"].map
        TrimSpace).filter (fun c => decide (c ≠ ""))) ∧
    (["  10.0.0.0/30 ", "", " \t ", "bad line", "192.168.0.0/31\r"].map TrimSpace).filter
        (fun c => decide (c ≠ "")) = ["10.0.0.0/30", "bad line", "192.168.0.0/31"] :=
  ⟨(c14_line_reading
      { openFile := fun _ =>
          OpenResult.opened
            { lines := ["  10.0.0.0/30 ", "", " \t ", "bad line", "192.168.0.0/31\r"],
              err := none },
        stdin := { lines := [], err := none },
        stdinIsCharDevice := true }
      "list.txt"
      { lines := ["  10.0.0.0/30 ", "", " \t ", "bad line", "192.168.0.0/31\r"], err := none }
      (Or.inl ⟨by decide, rfl⟩) rfl).1,
    by decide⟩

/-! ## Byte order and inverse conversions -/

theorem range_sixteen :
    List.range 16 = [0, 1, 2, 3, 4, 5, 6, 7, 8, 9, 10, 11, 12, 13, 14, 15] := by
  decide

/-- C15: network byte order in both families. For octets `a b c d`,
`ip4ToUint32` of the address `a.b.c.d` (as four bytes or as `net.IPv4(a,b,c,d)`)
is `a*2^24 + b*2^16 + c*2^8 + d`; for a `uint32` `n`, `uint32ToIP n` is the
address with octets `n>>24, (n>>16)&255, (n>>8)&255, n&255`; for a 16-byte
address, `ipToBigInt` is the sum of `byte[k] * 256^(15-k)`. -/
theorem c15_network_byte_order :
    (∀ a b c d : Nat, a < 256 → b < 256 → c < 256 → d < 256 →
      ip4ToUint32 [a, b, c, d] = some (a * 2 ^ 24 + b * 2 ^ 16 + c * 2 ^ 8 + d) ∧
      ip4ToUint32 (IPv4 a b c d) = some (a * 2 ^ 24 + b * 2 ^ 16 + c * 2 ^ 8 + d)) ∧
    (∀ n : Nat, n < 2 ^ 32 →
      uint32ToIP n = IPv4 (n >>> 24) ((n >>> 16) &&& 255) ((n >>> 8) &&& 255) (n &&& 255) ∧
      To4 (uint32ToIP n) = [n >>> 24, (n >>> 16) &&& 255, (n >>> 8) &&& 255, n &&& 255]) ∧
    (∀ ip : IP, ip.length = 16 →
      ipToBigInt ip = ((List.range 16).map (fun k => ip.getD k 0 * 256 ^ (15 - k))).sum) := by
  refine ⟨?_, ?_, ?_⟩
  · intro a b c d ha hb hc hd
    refine ⟨ip4ToUint32_four ha hb hc hd, ?_⟩
    have h4 := ip4ToUint32_four ha hb hc hd
    unfold ip4ToUint32 at h4 ⊢
    rw [To4_four] at h4
    rw [IPv4, To4_mapped]
    exact h4
  · intro n hn
    have e1 : n >>> 24 = n / 2 ^ 24 % 256 := by
      rw [Nat.shiftRight_eq_div_pow]
      exact (Nat.mod_eq_of_lt (by omega)).symm
    have e2 : (n >>> 16) &&& 255 = n / 2 ^ 16 % 256 := by
      rw [and_255, Nat.shiftRight_eq_div_pow]
    have e3 : (n >>> 8) &&& 255 = n / 2 ^ 8 % 256 := by
      rw [and_255, Nat.shiftRight_eq_div_pow]
    have e4 : n &&& 255 = n % 256 := and_255 n
    rw [e1, e2, e3, e4, uint32ToIP_eq, IPv4, To4_mapped]
    exact ⟨rfl, rfl⟩
  · intro ip hl
    obtain ⟨a0, a1, a2, a3, a4, a5, a6, a7, a8, a9, a10, a11, a12, a13, a14, a15, rfl⟩ :=
      length_sixteen_cases ip hl
    rw [ipToBigInt, To16_of_length_sixteen hl]
    rw [range_sixteen]
    simp [beBytesToNat]
    ring

/-- A 4-byte or IPv4-mapped address is the `uint32ToIP` of its `ip4ToUint32`. -/
theorem uint32ToIP_ip4ToUint32 {ip : IP} (hl : ip.length = 4) (hb : ∀ x ∈ ip, x < 256) :
    ∃ v, ip4ToUint32 ip = some v ∧ v < 2 ^ 32 ∧ To4 (uint32ToIP v) = ip ∧
      uint32ToIP v = To16 ip := by
  have hv : beBytesToNat ip < 2 ^ 32 := by
    have h1 := beBytesToNat_lt ip hb
    rw [hl] at h1
    norm_num at h1 ⊢
    exact h1
  refine ⟨beBytesToNat ip, ip4ToUint32_of_length_four ip hl hb, hv, ?_⟩
  have hto4 : To4 (uint32ToIP (beBytesToNat ip)) = ip := by
    rw [uint32ToIP_eq, To4_mapped]
    apply beBytesToNat_inj
    · simp [hl]
    · intro x hx
      simp only [List.mem_cons, List.mem_singleton, List.mem_nil_iff, or_false] at hx
      omega
    · exact hb
    · rw [beBytesToNat_four]
      omega
  refine ⟨hto4, ?_⟩
  rw [uint32ToIP_eq, To4_mapped] at hto4
  rw [uint32ToIP_eq, hto4]
  obtain ⟨a, b, c, d, rfl⟩ : ∃ a b c d, ip = [a, b, c, d] := by
    rcases ip with _ | ⟨a, ip⟩
    · simp at hl
    rcases ip with _ | ⟨b, ip⟩
    · simp at hl
    rcases ip with _ | ⟨c, ip⟩
    · simp at hl
    rcases ip with _ | ⟨d, ip⟩
    · simp at hl
    rcases ip with _ | ⟨e, ip⟩
    · exact ⟨a, b, c, d, rfl⟩
    · simp at hl
  simp [To16, IPv4len, IPv4]

/-- A 16-byte address is the `bigIntToIP` of its `ipToBigInt`. -/
theorem bigIntToIP_ipToBigInt {ip : IP} (hl : ip.length = 16) (hb : ∀ x ∈ ip, x < 256) :
    bigIntToIP (ipToBigInt ip) false = ip := by
  have hval : ipToBigInt ip = beBytesToNat ip := by
    rw [ipToBigInt, To16_of_length_sixteen hl]
  have hv : beBytesToNat ip < 2 ^ 128 := by
    have h1 := beBytesToNat_lt ip hb
    rw [hl] at h1
    norm_num at h1 ⊢
    exact h1
  rw [hval]
  obtain ⟨elen, eval, ebytes⟩ := bigIntToIP_facts hv
  exact beBytesToNat_inj _ _ (by rw [elen, hl]) ebytes hb eval

/-- C17: the conversions are mutually inverse on their valid ranges:
`ip4ToUint32 (uint32ToIP n) = n` for every 32-bit `n`; for every 4-byte address
`uint32ToIP (ip4ToUint32 ip)` is the same address (its 16-byte form, whose
`To4` is `ip`); `ipToBigInt (bigIntToIP i false) = i` for every `i < 2^128`;
and `bigIntToIP (ipToBigInt ip) false = ip` for every 16-byte address. -/
theorem c17_conversions_inverse :
    (∀ n : Nat, n < 2 ^ 32 → ip4ToUint32 (uint32ToIP n) = some n) ∧
    (∀ ip : IP, ip.length = 4 → (∀ x ∈ ip, x < 256) →
      ∃ v, ip4ToUint32 ip = some v ∧ To4 (uint32ToIP v) = ip ∧ uint32ToIP v = To16 ip) ∧
    (∀ i : Nat, i < 2 ^ 128 → ipToBigInt (bigIntToIP i false) = i) ∧
    (∀ ip : IP, ip.length = 16 → (∀ x ∈ ip, x < 256) →
      bigIntToIP (ipToBigInt ip) false = ip) := by
  refine ⟨fun n hn => ip4ToUint32_uint32ToIP hn, ?_, fun i hi => ipToBigInt_bigIntToIP hi,
    fun ip hl hb => bigIntToIP_ipToBigInt hl hb⟩
  intro ip hl hb
  obtain ⟨v, h1, _, h2, h3⟩ := uint32ToIP_ip4ToUint32 hl hb
  exact ⟨v, h1, h2, h3⟩

/-- C17, witness: the four round trips on `192.168.0.1` and on `2001:db8::1`. -/
theorem c17_conversions_inverse_witness :
    ip4ToUint32 (uint32ToIP 3232235521) = some 3232235521 ∧
    (∃ v, ip4ToUint32 [192, 168, 0, 1] = some v ∧ To4 (uint32ToIP v) = [192, 168, 0, 1] ∧
      uint32ToIP v = To16 [192, 168, 0, 1]) ∧
    ipToBigInt (bigIntToIP 42540766411282592856903984951653826561 false) =
      42540766411282592856903984951653826561 ∧
    bigIntToIP (ipToBigInt [32, 1, 13, 184, 0, 0, 0, 0, 0, 0, 0, 0, 0, 0, 0, 1]) false =
      [32, 1, 13, 184, 0, 0, 0, 0, 0, 0, 0, 0, 0, 0, 0, 1] :=
  ⟨c17_conversions_inverse.1 3232235521 (by norm_num),
    c17_conversions_inverse.2.1 [192, 168, 0, 1] rfl (by decide),
    c17_conversions_inverse.2.2.1 42540766411282592856903984951653826561 (by norm_num),
    c17_conversions_inverse.2.2.2 [32, 1, 13, 184, 0, 0, 0, 0, 0, 0, 0, 0, 0, 0, 0, 1] rfl
      (by decide)⟩

/-- C15, witness: the byte order on `192.168.0.1` and on `2001:db8::1`. -/
theorem c15_network_byte_order_witness :
    (ip4ToUint32 [192, 168, 0, 1] = some (192 * 2 ^ 24 + 168 * 2 ^ 16 + 0 * 2 ^ 8 + 1) ∧
      ip4ToUint32 (IPv4 192 168 0 1) = some (192 * 2 ^ 24 + 168 * 2 ^ 16 + 0 * 2 ^ 8 + 1)) ∧
    (uint32ToIP 3232235521 =
        IPv4 (3232235521 >>> 24) ((3232235521 >>> 16) &&& 255) ((3232235521 >>> 8) &&& 255)
          (3232235521 &&& 255) ∧
      To4 (uint32ToIP 3232235521) =
        [3232235521 >>> 24, (3232235521 >>> 16) &&& 255, (3232235521 >>> 8) &&& 255,
          3232235521 &&& 255]) ∧
    ipToBigInt [32, 1, 13, 184, 0, 0, 0, 0, 0, 0, 0, 0, 0, 0, 0, 1] =
      ((List.range 16).map
        (fun k => [32, 1, 13, 184, 0, 0, 0, 0, 0, 0, 0, 0, 0, 0, 0, 1].getD k 0 *
          256 ^ (15 - k))).sum :=
  ⟨c15_network_byte_order.1 192 168 0 1 (by decide) (by decide) (by decide) (by decide),
    c15_network_byte_order.2.1 3232235521 (by norm_num),
    c15_network_byte_order.2.2 [32, 1, 13, 184, 0, 0, 0, 0, 0, 0, 0, 0, 0, 0, 0, 1] rfl⟩

/-! ## Excluded addresses, 128-bit bound, termination -/

/-- C16: for every accepted IPv4 CIDR at every prefix length, neither the
network address `start` nor the broadcast address `start | ^mask` is among the
addresses printed by a call that completes, whatever the fuel. -/
theorem c16_network_and_broadcast_not_printed {s : String} {ip : IP} {ipNet : IPNet}
    {p fuel start mask : Nat} {printed : List IP}
    (h : ParseCIDR s = some (ip, ipNet)) (hsz : IPMaskSize ipNet.Mask = (p, 32))
    (hs : ip4ToUint32 ipNet.IP = some start) (hm : ip4ToUint32 ipNet.Mask = some mask)
    (hrun : extractIPsFromCIDR fuel s = some (Outcome.done printed)) :
    (∀ e ∈ printed, ip4ToUint32 e ≠ some start ∧
      ip4ToUint32 e ≠ some (broadcastOf start mask)) ∧
    uint32ToIP start ∉ printed ∧ uint32ToIP (broadcastOf start mask) ∉ printed := by
  obtain ⟨hp, _, hmask, hlen, hbytes, hal, hle⟩ := ipv4_parse_facts h hsz
  obtain ⟨mlen, mval, mbytes, _⟩ := cidrMask32_facts p hp
  have hs2 : start = beBytesToNat ipNet.IP := by
    rw [ip4ToUint32_of_length_four _ hlen hbytes] at hs
    exact (Option.some.inj hs).symm
  have hm2 : mask = 2 ^ 32 - 2 ^ (32 - p) := by
    rw [hmask, ip4ToUint32_of_length_four _ mlen mbytes, mval] at hm
    exact (Option.some.inj hm).symm
  have hpos : 0 < 2 ^ (32 - p) := Nat.two_pow_pos _
  have hb : broadcastOf start mask = start + 2 ^ (32 - p) - 1 := by
    rw [hs2, hm2]
    exact (broadcast_total (Nat.sub_le 32 p) hal hle).1
  have key : ∀ e ∈ printed, ip4ToUint32 e ≠ some start ∧
      ip4ToUint32 e ≠ some (broadcastOf start mask) := by
    intro e he
    rcases printed_cases h hrun with hnil | ⟨q, hq1, hq30, hszq, hpr⟩ | ⟨q, hq, hszq, h4, hpr⟩
    · rw [hnil] at he
      simp at he
    · have hqp : q = p := by
        rw [hsz] at hszq
        exact (Prod.mk.inj hszq).1.symm
      subst hqp
      rw [hpr, List.mem_map] at he
      obtain ⟨i, hi, rfl⟩ := he
      rw [List.mem_range'_1] at hi
      rw [ip4ToUint32_uint32ToIP (by omega), hb, hs2]
      constructor
      · intro hc
        have := Option.some.inj hc
        omega
      · intro hc
        have := Option.some.inj hc
        omega
    · rw [hsz] at hszq
      simp at hszq
  refine ⟨key, ?_, ?_⟩
  · intro hc
    exact (key _ hc).1 (ip4ToUint32_uint32ToIP (by omega))
  · intro hc
    exact (key _ hc).2 (ip4ToUint32_uint32ToIP (by omega))

/-- C16, witness: `192.168.0.0/30` prints `.1` and `.2`, not `.0` and not `.3`. -/
theorem c16_network_and_broadcast_not_printed_witness :
    ParseCIDR "192.168.0.0/30" =
        some ([0, 0, 0, 0, 0, 0, 0, 0, 0, 0, 255, 255, 192, 168, 0, 0],
          { IP := [192, 168, 0, 0], Mask := [255, 255, 255, 252] }) ∧
      extractIPsFromCIDR 3 "192.168.0.0/30" =
        some (Outcome.done [[0, 0, 0, 0, 0, 0, 0, 0, 0, 0, 255, 255, 192, 168, 0, 1],
          [0, 0, 0, 0, 0, 0, 0, 0, 0, 0, 255, 255, 192, 168, 0, 2]]) ∧
      ((∀ e ∈ [[0, 0, 0, 0, 0, 0, 0, 0, 0, 0, 255, 255, 192, 168, 0, 1],
            [0, 0, 0, 0, 0, 0, 0, 0, 0, 0, 255, 255, 192, 168, 0, 2]],
          ip4ToUint32 e ≠ some 3232235520 ∧
            ip4ToUint32 e ≠ some (broadcastOf 3232235520 4294967292)) ∧
        uint32ToIP 3232235520 ∉ [[0, 0, 0, 0, 0, 0, 0, 0, 0, 0, 255, 255, 192, 168, 0, 1],
            [0, 0, 0, 0, 0, 0, 0, 0, 0, 0, 255, 255, 192, 168, 0, 2]] ∧
        uint32ToIP (broadcastOf 3232235520 4294967292) ∉
          [[0, 0, 0, 0, 0, 0, 0, 0, 0, 0, 255, 255, 192, 168, 0, 1],
            [0, 0, 0, 0, 0, 0, 0, 0, 0, 0, 255, 255, 192, 168, 0, 2]]) :=
  ⟨by decide, by decide,
    @c16_network_and_broadcast_not_printed "192.168.0.0/30"
      [0, 0, 0, 0, 0, 0, 0, 0, 0, 0, 255, 255, 192, 168, 0, 0]
      { IP := [192, 168, 0, 0], Mask := [255, 255, 255, 252] } 30 3 3232235520 4294967292 _
      (by decide) (by decide) (by decide) (by decide) (by decide)⟩

/-- C18: for every accepted IPv6 CIDR of prefix length `p` and every `i` below
`2^(128-p)` (so in particular for `p ≤ 127` and `1 ≤ i < 2^(128-p)`, the values
the loop uses), `networkInt + i` is below `2^128`, its big-endian encoding has
at most 16 bytes, and `bigIntToIP (networkInt + i) false` has exactly 16 bytes. -/
theorem c18_ipv6_sum_fits_128_bits {s : String} {ip : IP} {ipNet : IPNet} {p i : Nat}
    (h : ParseCIDR s = some (ip, ipNet)) (hsz : IPMaskSize ipNet.Mask = (p, 128))
    (h2 : i < 2 ^ (128 - p)) :
    ipToBigInt ipNet.IP + i < 2 ^ 128 ∧
      (bigBytes (ipToBigInt ipNet.IP + i)).length ≤ 16 ∧
      (bigIntToIP (ipToBigInt ipNet.IP + i) false).length = 16 := by
  obtain ⟨_, _, _, _, _, _, hle, _⟩ := ipv6_parse_facts h hsz
  have hv : ipToBigInt ipNet.IP + i < 2 ^ 128 := by omega
  refine ⟨hv, ?_, (bigIntToIP_facts hv).1⟩
  have h256 : ipToBigInt ipNet.IP + i < 256 ^ 16 := by
    norm_num at hv ⊢
    exact hv
  have := bigBytesAux_length (ipToBigInt ipNet.IP + i) (ipToBigInt ipNet.IP + i) [] 16 h256
  simpa [bigBytes] using this

/-- C18, witness: `2001:db8::/126` with `i = 3`. -/
theorem c18_ipv6_sum_fits_128_bits_witness :
    ParseCIDR "2001:db8::/126" =
        some ([32, 1, 13, 184, 0, 0, 0, 0, 0, 0, 0, 0, 0, 0, 0, 0],
          { IP := [32, 1, 13, 184, 0, 0, 0, 0, 0, 0, 0, 0, 0, 0, 0, 0],
            Mask := CIDRMask 126 128 }) ∧
      (ipToBigInt [32, 1, 13, 184, 0, 0, 0, 0, 0, 0, 0, 0, 0, 0, 0, 0] + 3 < 2 ^ 128 ∧
        (bigBytes (ipToBigInt [32, 1, 13, 184, 0, 0, 0, 0, 0, 0, 0, 0, 0, 0, 0, 0] + 3)).length
          ≤ 16 ∧
        (bigIntToIP (ipToBigInt [32, 1, 13, 184, 0, 0, 0, 0, 0, 0, 0, 0, 0, 0, 0, 0] + 3)
          false).length = 16) :=
  ⟨by decide,
    @c18_ipv6_sum_fits_128_bits "2001:db8::/126"
      [32, 1, 13, 184, 0, 0, 0, 0, 0, 0, 0, 0, 0, 0, 0, 0]
      { IP := [32, 1, 13, 184, 0, 0, 0, 0, 0, 0, 0, 0, 0, 0, 0, 0], Mask := CIDRMask 126 128 }
      126 3 (by decide) (by decide) (by decide)⟩

/-- The bounds behind the IPv4 loop: `broadcast` is a `uint32` not below
`start`, and `total > 2` leaves at least one value strictly between them. -/
theorem broadcast_bounds {start mask : Nat} (hs : start < 2 ^ 32) (hm : mask < 2 ^ 32) :
    start ≤ broadcastOf start mask ∧ broadcastOf start mask < 2 ^ 32 ∧
    (totalOf (broadcastOf start mask) start > 2 → start + 1 < broadcastOf start mask) := by
  have h1 : start ≤ broadcastOf start mask := by
    apply Nat.le_of_testBit
    intro i hi
    simp [broadcastOf, hi]
  have h2 : broadcastOf start mask < 2 ^ 32 :=
    Nat.or_lt_two_pow hs (Nat.xor_lt_two_pow hm (by norm_num))
  refine ⟨h1, h2, ?_⟩
  intro ht
  unfold totalOf at ht
  generalize broadcastOf start mask = b at h1 h2 ht ⊢
  norm_num at hs h2 ht
  omega

/-- C19: every expansion is finite. Every call of `extractIPsFromCIDR` ends
within `2^128` loop rounds. For all `uint32` values `start` and `mask` with
`total > 2`, the IPv4 loop ends after exactly `broadcast - start - 1` rounds
that print (it needs one more round of fuel for the failing test), it visits
the counter values `start+1, ..., broadcast-1`, and no increment wraps; from
every counter value the IPv4 loop ends. The IPv6 loop ends after exactly
`total - 1` printing rounds. -/
theorem c19_loops_terminate :
    (∀ (s : String) (fuel : Nat), 2 ^ 128 ≤ fuel → ∃ o, extractIPsFromCIDR fuel s = some o) ∧
    (∀ start mask : Nat, start < 2 ^ 32 → mask < 2 ^ 32 →
      totalOf (broadcastOf start mask) start > 2 →
      broadcastOf start mask ≤ 2 ^ 32 - 1 ∧
      (∀ i, i < broadcastOf start mask → (i + 1) % 2 ^ 32 = i + 1 ∧
        i + 1 ≤ broadcastOf start mask) ∧
      (∀ fuel, hostLoop4 fuel (broadcastOf start mask) ((start + 1) % 2 ^ 32) =
        if broadcastOf start mask - start - 1 < fuel then
          some ((List.range' (start + 1) (broadcastOf start mask - start - 1)).map uint32ToIP)
        else none) ∧
      ((List.range' (start + 1) (broadcastOf start mask - start - 1)).map uint32ToIP).length =
        broadcastOf start mask - start - 1) ∧
    (∀ broadcast i : Nat, broadcast < 2 ^ 32 →
      ∃ l, hostLoop4 (broadcast - i + 1) broadcast i = some l ∧ l.length = broadcast - i) ∧
    (∀ total networkInt fuel : Nat, 1 ≤ total →
      hostLoop6 fuel total networkInt 1 =
        (if total - 1 < fuel then
          some ((List.range' 1 (total - 1)).map
            (fun j => bigIntToIP (networkInt + j) false))
        else none) ∧
      ((List.range' 1 (total - 1)).map
        (fun j => bigIntToIP (networkInt + j) false)).length = total - 1) := by
  refine ⟨fun s fuel hf => extract_terminates s fuel hf, ?_, ?_, ?_⟩
  · intro start mask hs hm ht
    obtain ⟨h1, h2, h3⟩ := broadcast_bounds hs hm
    have h4 := h3 ht
    refine ⟨by omega, fun i hi => ⟨Nat.mod_eq_of_lt (by omega), by omega⟩, ?_, by simp⟩
    intro fuel
    have hmod : (start + 1) % 2 ^ 32 = start + 1 := Nat.mod_eq_of_lt (by omega)
    rw [hmod, hostLoop4_eq fuel _ _ (by omega) h2]
    have : broadcastOf start mask - (start + 1) = broadcastOf start mask - start - 1 := by omega
    rw [this]
  · intro b i hb
    by_cases hi : i ≤ b
    · rw [hostLoop4_eq _ _ _ hi hb, if_pos (by omega)]
      exact ⟨_, rfl, by simp⟩
    · have h0 : b - i = 0 := by omega
      rw [h0]
      refine ⟨[], ?_, rfl⟩
      simp only [hostLoop4]
      rw [if_neg (by omega)]
  · intro total net fuel ht
    refine ⟨hostLoop6_eq fuel total net 1 ht, by simp⟩

/-- C19, witness: the loops of `192.168.0.0/29` (start `3232235520`, mask
`0xFFFFFFF8`, six hosts) and of an IPv6 block of four addresses. -/
theorem c19_loops_terminate_witness :
    (∃ o, extractIPsFromCIDR (2 ^ 128) "10.0.0.0/8" = some o) ∧
    (broadcastOf 3232235520 4294967288 ≤ 2 ^ 32 - 1 ∧
      (∀ i, i < broadcastOf 3232235520 4294967288 → (i + 1) % 2 ^ 32 = i + 1 ∧
        i + 1 ≤ broadcastOf 3232235520 4294967288) ∧
      (∀ fuel, hostLoop4 fuel (broadcastOf 3232235520 4294967288)
          ((3232235520 + 1) % 2 ^ 32) =
        if broadcastOf 3232235520 4294967288 - 3232235520 - 1 < fuel then
          some ((List.range' (3232235520 + 1)
            (broadcastOf 3232235520 4294967288 - 3232235520 - 1)).map uint32ToIP)
        else none) ∧
      ((List.range' (3232235520 + 1)
        (broadcastOf 3232235520 4294967288 - 3232235520 - 1)).map uint32ToIP).length =
        broadcastOf 3232235520 4294967288 - 3232235520 - 1) ∧
    broadcastOf 3232235520 4294967288 - 3232235520 - 1 = 6 :=
  ⟨c19_loops_terminate.1 "10.0.0.0/8" (2 ^ 128) (Nat.le_refl _),
    c19_loops_terminate.2.1 3232235520 4294967288 (by norm_num) (by norm_num) (by decide),
    by decide⟩

end Cidr2ips
